import Mathlib

open scoped List

/-!
# Verification of the induslog synthetic e-commerce log generator (`src/app.py`)

Shallow embedding of the simulation engine of `app.py`:

* Python dict values are embedded as the inductive `Val` (JSON-like values);
  a Python dict is an ordered association list `Dict`.
* The simulated clock (`datetime`) is embedded as a rational number of seconds;
  `hour` is the usual seconds-to-hour-of-day projection and ISO timestamps are
  represented by the clock value itself.
* Every call to the `random` module is made explicit: each random draw is an
  oracle value threaded through the functions.  `randint`, `uniform`, `choice`
  and `sample` are modelled so that their documented ranges hold for every
  oracle value (`randint a b` via `a + r % (b-a+1)`, `uniform a b` by clamping
  a raw rational into `[a,b]`, `choice` by reducing an index modulo the length,
  `sample` by repeatedly choosing and removing a position).  `choice` on an
  empty list and an oversized `sample` raise, embedded with `Except`.
* Exceptions are `Except String`, carrying the Python message text.
* `round` is embedded as rounding to the nearest (Python uses banker's
  rounding on floats; no claim below depends on tie behaviour).
-/

/-- A JSON-like value: the embedding of a Python object stored in a log dict. -/
inductive Val where
  | null : Val
  | str : String → Val
  | int : Int → Val
  | rat : Rat → Val
  | obj : List (String × Val) → Val
  | arr : List Val → Val
deriving Repr

/-- A Python dict with string keys, as an ordered association list. -/
abbrev Dict := List (String × Val)

/-- `d.get(k)`: the first value bound to `k`, if any. -/
def dget (d : Dict) (k : String) : Option Val :=
  (d.find? (fun kv => kv.1 == k)).map (·.2)

/-- `d.get(k, v)`: lookup with a default. -/
def dgetD (d : Dict) (k : String) (v : Val) : Val :=
  (dget d k).getD v

/-- The keys of a dict, in order. -/
def dkeys (d : Dict) : List String := d.map (·.1)

/-- `random.randint(a, b)` (`a ≤ b`): every raw oracle value `r` is mapped into
`[a, b]` the way a uniform generator would, via `a + r % (b - a + 1)`. -/
def pyrandint (a b r : Nat) : Nat := a + r % (b - a + 1)

/-- `random.uniform(a, b)`: a raw rational oracle value clamped into `[a, b]`. -/
def pyuniform (a b q : Rat) : Rat := a + (b - a) * (max 0 (min 1 q))

/-- `int(x)` on a float/rational: truncation toward zero. -/
def pyint (q : Rat) : Int := if 0 ≤ q then ⌊q⌋ else ⌈q⌉

/-- `random.choice(xs)`: raises `IndexError` on an empty sequence, otherwise
returns the element at the oracle index reduced modulo the length. -/
def pychoice : List α → Nat → Except String α
  | [], _ => .error "Cannot choose from an empty sequence"
  | x :: xs, i =>
    .ok ((x :: xs).get ⟨i % (x :: xs).length, Nat.mod_lt _ (Nat.succ_pos _)⟩)

/-- Selection core of `random.sample`: `k` times, pick the element at the next
oracle position (modulo the current length) and remove it before recursing. -/
def sampleAux (g : Nat → Nat) : Nat → Nat → List α → List α
  | _, 0, _ => []
  | _, _ + 1, [] => []
  | step, k + 1, x :: xs =>
    let l := x :: xs
    let i : Nat := g step % l.length
    l.get ⟨i, Nat.mod_lt _ (Nat.succ_pos _)⟩ ::
      sampleAux g (step + 1) k (l.eraseIdx i)

/-- `random.sample(xs, k)`: raises `ValueError` when `k` exceeds the population
size, otherwise returns `k` elements drawn without replacement. -/
def pysample (xs : List α) (k : Nat) (g : Nat → Nat) : Except String (List α) :=
  if xs.length < k then .error "Sample larger than population or is negative"
  else .ok (sampleAux g 0 k xs)

/-- `round(q, 2)`: rounding to two decimal places. -/
def round2 (q : Rat) : Rat := (round (q * 100) : Int) / 100

/-- Hour-of-day of a clock value in seconds (`datetime.hour`). -/
def hourOf (t : Rat) : Nat := ((⌊t / 3600⌋) % 24).toNat

/-- `datetime.now().replace(hour=h, minute=0, second=0, microsecond=0)`:
keep the day of `now`, zero the time of day, set hour `h`. -/
def replace_hour (now : Rat) (h : Nat) : Rat := 86400 * ⌊now / 86400⌋ + h * 3600

/-- A member of the user pool (`generate_users` output shape). -/
structure User where
  user_id : String
  geo : Val
  device_type : String
deriving Repr

/-- A member of the product pool (`generate_products` output shape). -/
structure Product where
  product_id : String
  name : String
  price : Rat
deriving Repr

/-- `generate_products(n)`: sequential ids and names `1..n`, price
`round(uniform(10,500), 2)` with `draw i` the raw oracle for product `i`. -/
def generate_products (n : Nat) (draw : Nat → Rat) : List Product :=
  (List.range' 1 n).map fun i =>
    { product_id := "prod_" ++ toString i
      name := "Product " ++ toString i
      price := round2 (pyuniform 10 500 (draw i)) }

/-- `generate_ip()`: four octets `randint(0,255)`, dot-joined. -/
def generate_ip (o : Nat × Nat × Nat × Nat) : String :=
  toString (pyrandint 0 255 o.1) ++ "." ++ toString (pyrandint 0 255 o.2.1) ++ "." ++
    toString (pyrandint 0 255 o.2.2.1) ++ "." ++ toString (pyrandint 0 255 o.2.2.2)

def agents_desktop : List String :=
  ["Mozilla/5.0 (Windows NT 10.0; Win64; x64)", "Mozilla/5.0 (X11; Ubuntu; Linux x86_64)"]

def agents_mobile : List String :=
  ["Mozilla/5.0 (iPhone; CPU iPhone OS 14_0 like Mac OS X)", "Mozilla/5.0 (Android 10)"]

def agents_tablet : List String :=
  ["Mozilla/5.0 (iPad; CPU OS 13_2 like Mac OS X)"]

/-- The pool `generate_user_agent` draws from: the per-device list when the
device is a known key, otherwise the concatenation of all lists. -/
def uaPool (device : Option Val) : List String :=
  match device with
  | some (Val.str "desktop") => agents_desktop
  | some (Val.str "mobile") => agents_mobile
  | some (Val.str "tablet") => agents_tablet
  | _ => agents_desktop ++ agents_mobile ++ agents_tablet

/-- `generate_user_agent(device)`: uniform choice from `uaPool device`; the
pools are non-empty so the underlying `random.choice` never raises. -/
def generate_user_agent (device : Option Val) (i : Nat) : String :=
  (uaPool device).getD (i % (uaPool device).length) ""

/-- The fresh values `log_event` generates for one call: the `uuid4` session
id, the raw octets of `generate_ip`, and the choice index of
`generate_user_agent`. -/
structure LogFresh where
  sid : String
  ipo : Nat × Nat × Nat × Nat
  uaIx : Nat
deriving Repr

/-- One buffered log entry.  `log_event` always builds a dict with exactly the
nine keys below, in this order; we embed it as a record together with its dict
view `entryDict`. -/
structure Entry where
  timestamp : Rat
  event_type : String
  session_id : String
  user_id : Val
  ip_address : Val
  user_agent : Val
  geo : Val
  device_type : Val
  data : Val
deriving Repr

/-- `log_event(event_type, data)` evaluated at clock `ts` with fresh values
`fr`: defaults `user_id`/`geo`/`device_type` to `None`, `ip_address` and
`user_agent` to freshly generated values, and `data` to the whole input dict.
(Python evaluates the `dict.get` defaults eagerly, so the generator draws
happen even when the key is present; as the draws are oracle values here,
only which value ends up in the entry matters.) -/
def log_event (ts : Rat) (fr : LogFresh) (event_type : String) (data : Dict) : Entry :=
  { timestamp := ts
    event_type := event_type
    session_id := fr.sid
    user_id := dgetD data "user_id" Val.null
    ip_address := dgetD data "ip_address" (Val.str (generate_ip fr.ipo))
    user_agent :=
      dgetD data "user_agent"
        (Val.str (generate_user_agent (dget data "device_type") fr.uaIx))
    geo := dgetD data "geo" Val.null
    device_type := dgetD data "device_type" Val.null
    data := dgetD data "data" (Val.obj data) }

/-- The dict underlying an entry: the nine fields in source order. -/
def entryDict (e : Entry) : Dict :=
  [("timestamp", Val.rat e.timestamp),
   ("event_type", Val.str e.event_type),
   ("session_id", Val.str e.session_id),
   ("user_id", e.user_id),
   ("ip_address", e.ip_address),
   ("user_agent", e.user_agent),
   ("geo", e.geo),
   ("device_type", e.device_type),
   ("data", e.data)]

/-- The engine state: log buffer, pools and the simulated clock. -/
structure App where
  logs : List Entry
  users : List User
  products : List Product
  current_time : Rat

/-- Append one entry to the buffer (`self.logs.append(entry)`). -/
def appLog (app : App) (e : Entry) : App := { app with logs := app.logs ++ [e] }

/-- `time_based_actions()`: the hour-banded candidate multiset. -/
def time_based_actions (app : App) : List String :=
  let h := hourOf app.current_time
  if 6 ≤ h ∧ h < 12 then
    List.replicate 4 "search" ++ List.replicate 3 "page_view" ++ ["product_view"]
  else if 12 ≤ h ∧ h < 18 then
    List.replicate 3 "page_view" ++ List.replicate 3 "product_view" ++
      List.replicate 2 "add_to_cart"
  else if 18 ≤ h ∧ h < 22 then
    List.replicate 2 "product_view" ++ List.replicate 3 "add_to_cart" ++
      List.replicate 2 "purchase"
  else
    List.replicate 2 "error" ++ ["search"] ++ ["logout"]

/-- Randomness consumed by one emitter call: the `log_event` fresh values plus
the draws the individual emitters make (a `choice` index, a `randint` raw, a
`uuid4` order id, and the selection stream of `random.sample`). -/
structure EmitRand where
  fresh : LogFresh
  ix : Nat
  rint : Nat
  oid : String
  sel : Nat → Nat

/-- The common outer dict every emitter passes to `log_event`. -/
def payload (user : User) (d : Dict) : Dict :=
  [("user_id", Val.str user.user_id), ("data", Val.obj d),
   ("geo", user.geo), ("device_type", Val.str user.device_type)]

def pages : List String := ["home", "category", "checkout"]

def queries : List String := ["laptop", "shoes", "watch", "phone", "headphones"]

def err_table : List (Int × String) :=
  [(500, "Internal Server Error"), (404, "Not Found"), (403, "Forbidden"),
   (502, "Bad Gateway")]

/-- The item objects listed in a purchase payload. -/
def itemsVal (items : List Product) : Val :=
  Val.arr (items.map fun p =>
    Val.obj [("product_id", Val.str p.product_id), ("price", Val.rat p.price)])

/-- The event-specific inner `data` dict built by the emitter named `act`
(each emitter body up to its final `log_event` call); raises exactly where the
Python emitter would (choosing or sampling from an empty pool, unknown
attribute name). -/
def action_data (products : List Product) (user : User) (act : String)
    (r : EmitRand) : Except String Dict :=
  match act with
  | "page_view" => do
      let page ← pychoice pages r.ix
      .ok [("user_id", Val.str user.user_id), ("page", Val.str page)]
  | "product_view" => do
      let p ← pychoice products r.ix
      .ok [("user_id", Val.str user.user_id), ("product_id", Val.str p.product_id),
           ("price", Val.rat p.price)]
  | "add_to_cart" => do
      let p ← pychoice products r.ix
      .ok [("user_id", Val.str user.user_id), ("product_id", Val.str p.product_id),
           ("quantity", Val.int (pyrandint 1 5 r.rint))]
  | "purchase" => do
      let items ← pysample products (pyrandint 1 3 r.rint) r.sel
      .ok [("user_id", Val.str user.user_id), ("order_id", Val.str r.oid),
           ("amount", Val.rat (round2 ((items.map (·.price)).sum))),
           ("items", itemsVal items)]
  | "search" => do
      let q ← pychoice queries r.ix
      .ok [("user_id", Val.str user.user_id), ("query", Val.str q)]
  | "login" => .ok [("user_id", Val.str user.user_id)]
  | "logout" => .ok [("user_id", Val.str user.user_id)]
  | "error" => do
      let e ← pychoice err_table r.ix
      .ok [("user_id", Val.str user.user_id), ("error_code", Val.int e.1),
           ("error_message", Val.str e.2)]
  | _ => .error ("'EcommerceApp' object has no attribute '" ++ act ++ "'")

/-- `getattr(self, act)(user)`: run the emitter named `act`; on success the
composed entry is appended to the buffer. -/
def dispatch (app : App) (user : User) (act : String) (r : EmitRand) :
    Except String App :=
  (action_data app.products user act r).map fun d =>
    appLog app (log_event app.current_time r.fresh act (payload user d))

/-- Randomness of one iteration of the journey loop: the action choice index,
the emitter randomness, the fresh values of the `except`-branch `log_event`,
and the raw clock-advance draw. -/
structure StepRand where
  actIx : Nat
  er : EmitRand
  errFresh : LogFresh
  adv : Rat

/-- The synthetic error entry the journey driver logs when an emitter raises
with message `m`. -/
def journey_error_entry (t : Rat) (fr : LogFresh) (user : User) (m : String) : Entry :=
  log_event t fr "error"
    [("user_id", Val.str user.user_id),
     ("data", Val.obj [("error_code", Val.int 0), ("error_message", Val.str m)]),
     ("geo", user.geo), ("device_type", Val.str user.device_type)]

/-- One iteration of the action loop of `simulate_user_journey`: run the
chosen emitter, turning any exception it raises into a synthetic `error`
event, then advance the clock by `uniform(30,120) / load_factor`.
The `random.choice` over the candidate actions happens outside the `try`
block, so its failure propagates. -/
def journeyStep (lf : Rat) (user : User) (actions : List String) (app : App)
    (sr : StepRand) : Except String App := do
  let act ← pychoice actions sr.actIx
  let app1 :=
    match dispatch app user act sr.er with
    | .ok a => a
    | .error m =>
        appLog app (journey_error_entry app.current_time sr.errFresh user m)
  .ok { app1 with
        current_time := app1.current_time + pyuniform 30 120 sr.adv / lf }

/-- Randomness consumed by one `simulate_user_journey` call. -/
structure JourneyRand where
  userIx : Nat
  loginFresh : LogFresh
  countRaw : Nat
  steps : Nat → StepRand
  logoutFresh : LogFresh

/-- The number of loop iterations: `int(randint(5,15) * load_factor)`
(a Python `range` over a negative count is empty, hence `Int.toNat`). -/
def journey_count (lf : Rat) (countRaw : Nat) : Nat :=
  (pyint ((pyrandint 5 15 countRaw : Nat) * lf)).toNat

/-- `simulate_user_journey(load_factor, start_time)`. -/
def simulate_user_journey (app : App) (lf : Rat) (start : Option Rat)
    (jr : JourneyRand) : Except String App := do
  let app := match start with
             | some t => { app with current_time := t }
             | none => app
  let user ← pychoice app.users jr.userIx
  let app := appLog app
    (log_event app.current_time jr.loginFresh "login"
      (payload user [("user_id", Val.str user.user_id)]))
  let actions := time_based_actions app
  let count := journey_count lf jr.countRaw
  let app ← (List.range count).foldlM
    (fun a i => journeyStep lf user actions a (jr.steps i)) app
  .ok (appLog app
    (log_event app.current_time jr.logoutFresh "logout"
      (payload user [("user_id", Val.str user.user_id)])))

/-- `load = 2.0 if 18 <= hour < 20 else 0.5 if hour < 6 else 1.0`. -/
def load_for (hour : Nat) : Rat :=
  if 18 ≤ hour ∧ hour < 20 then 2 else if hour < 6 then 1/2 else 1

/-- One step of the `__main__` block, for stating what the run loop does. -/
inductive Op where
  | journey (start : Rat) (lf : Rat) : Op
  | save (filepath : String) : Op
deriving Repr

/-- The sequence of engine operations the `__main__` block performs, given the
wall clock `now`: for each hour `0..23`, five journeys at that hour's start
time and load factor, then a single `save_logs('app.json')`. -/
def main_ops (now : Rat) : List Op :=
  ((List.range 24).flatMap fun hour =>
    List.replicate 5 (Op.journey (replace_hour now hour) (load_for hour))) ++
  [Op.save "app.json"]

/-- Whether a run-loop operation is a save. -/
def Op.isSave : Op → Bool
  | .save _ => true
  | _ => false

/-- The load-factor mapping as the specification words it: `0.5` when
`hour < 6`, `2.0` when `18 ≤ hour < 20`, and `1.0` otherwise.  Stated
separately from `load_for` (which transcribes the source's conditional) so
that the two can be compared. -/
def spec_load (hour : Nat) : Rat :=
  if hour < 6 then 1/2 else if 18 ≤ hour ∧ hour < 20 then 2 else 1

/- ## General lemmas about the embedded primitives -/

theorem hourOf_lt_24 (t : Rat) : hourOf t < 24 := by
  unfold hourOf
  have h1 : (0 : Int) ≤ ⌊t / 3600⌋ % 24 := Int.emod_nonneg _ (by norm_num)
  have h2 : ⌊t / 3600⌋ % 24 < 24 := Int.emod_lt_of_pos _ (by norm_num)
  omega

theorem pyuniform_le (a b q : Rat) (hab : a ≤ b) :
    a ≤ pyuniform a b q ∧ pyuniform a b q ≤ b := by
  unfold pyuniform
  have h0 : (0 : Rat) ≤ max 0 (min 1 q) := le_max_left _ _
  have h1 : max 0 (min 1 q) ≤ 1 := max_le (by norm_num) (min_le_left _ _)
  constructor
  · nlinarith
  · nlinarith

theorem round2_bounds (lo hi q : Rat) (h1 : lo ≤ q) (h2 : q ≤ hi)
    (mlo : Int) (mhi : Int) (hlo : (mlo : Rat) = lo * 100) (hhi : (mhi : Rat) = hi * 100) :
    lo ≤ round2 q ∧ round2 q ≤ hi := by
  unfold round2
  rw [round_eq]
  have hfl : (mlo : Rat) ≤ q * 100 + 1 / 2 := by nlinarith
  have hlow : mlo ≤ ⌊q * 100 + 1 / 2⌋ := Int.le_floor.mpr hfl
  have hup : ⌊q * 100 + 1 / 2⌋ ≤ mhi := by
    have : (⌊q * 100 + 1 / 2⌋ : Rat) ≤ q * 100 + 1 / 2 := Int.floor_le _
    have h3 : (⌊q * 100 + 1 / 2⌋ : Rat) < (mhi : Rat) + 1 := by nlinarith
    exact_mod_cast Int.lt_add_one_iff.mp (by exact_mod_cast h3)
  have hc : (mlo : Rat) ≤ (⌊q * 100 + 1 / 2⌋ : Rat) := by exact_mod_cast hlow
  have hd : (⌊q * 100 + 1 / 2⌋ : Rat) ≤ (mhi : Rat) := by exact_mod_cast hup
  constructor
  · calc lo = (mlo : Rat) / 100 := by rw [hlo]; ring
      _ ≤ (⌊q * 100 + 1 / 2⌋ : Rat) / 100 :=
          (div_le_div_iff_of_pos_right (by norm_num : (0:Rat) < 100)).mpr hc
  · calc ((⌊q * 100 + 1 / 2⌋ : Int) : Rat) / 100 ≤ (mhi : Rat) / 100 :=
          (div_le_div_iff_of_pos_right (by norm_num : (0:Rat) < 100)).mpr hd
      _ = hi := by rw [hhi]; ring

theorem load_for_eq_spec_load : load_for = spec_load := by
  funext h
  unfold load_for spec_load
  split_ifs <;> first | rfl | omega

/- ## Claim theorems -/

/-- C3: for every simulated-clock state, `time_based_actions()` returns only
the names `error`, `search`, `logout` when the clock hour is in `[22,24)` or
`[0,6)`, and the returned candidates contain `purchase` if and only if the
clock hour is in `[18,22)`. -/
theorem claim_C3 (app : App) :
    ((22 ≤ hourOf app.current_time ∨ hourOf app.current_time < 6) →
      ∀ a ∈ time_based_actions app, a = "error" ∨ a = "search" ∨ a = "logout") ∧
    ("purchase" ∈ time_based_actions app ↔
      18 ≤ hourOf app.current_time ∧ hourOf app.current_time < 22) := by
  have h24 := hourOf_lt_24 app.current_time
  unfold time_based_actions
  set h := hourOf app.current_time with hh
  clear hh
  interval_cases h <;> constructor <;> decide

/-- An engine state whose clock reads hour 23 (nighttime band). -/
def app23 : App :=
  { logs := [], users := [], products := [], current_time := 23 * 3600 }

/-- An engine state whose clock reads hour 19 (evening peak band). -/
def app19 : App :=
  { logs := [], users := [], products := [], current_time := 19 * 3600 }

/-- Witness for C3 at concrete clock states: at hour 23 every candidate is
one of `error`/`search`/`logout`, and hour 19 offers `purchase`. -/
theorem claim_C3_witness :
    ("error" = "error" ∨ "error" = "search" ∨ "error" = "logout") ∧
    "purchase" ∈ time_based_actions app19 :=
  ⟨(claim_C3 app23).1 (by simp [app23, hourOf]) "error"
      (by simp [time_based_actions, app23, hourOf]),
   (claim_C3 app19).2.mpr (by simp [app19, hourOf])⟩

/-- C6: the run loop performs, for each hour `0..23`, exactly five journey
calls whose start time is that hour with minutes/seconds/microseconds zeroed
and whose load factor is `0.5` for `hour < 6`, `2.0` for `18 ≤ hour < 20`
and `1.0` otherwise, followed by exactly one save of the buffer. -/
theorem claim_C6 (now : Rat) :
    main_ops now =
      ((List.range 24).flatMap fun hour =>
        List.replicate 5 (Op.journey (replace_hour now hour) (spec_load hour))) ++
      [Op.save "app.json"] ∧
    ((main_ops now).filter Op.isSave) = [Op.save "app.json"] ∧
    (main_ops now).getLast? = some (Op.save "app.json") := by
  refine ⟨by rw [main_ops, load_for_eq_spec_load], ?_, ?_⟩
  · rw [main_ops, List.filter_append]
    have h1 : ((List.range 24).flatMap fun hour =>
        List.replicate 5 (Op.journey (replace_hour now hour) (load_for hour))).filter
          Op.isSave = [] := by
      rw [List.filter_eq_nil_iff]
      intro op hop
      rw [List.mem_flatMap] at hop
      obtain ⟨h, _, hrep⟩ := hop
      rw [List.eq_of_mem_replicate hrep]
      simp [Op.isSave]
    rw [h1]
    rfl
  · rw [main_ops, List.getLast?_append]
    rfl

/-- C8: every product generated by `generate_products n` has a price between
10 and 500 with at most two decimal digits, and the product ids are the
sequential strings `prod_1 .. prod_n`. -/
theorem claim_C8 (n : Nat) (_hn : 0 < n) (draw : Nat → Rat) :
    ((generate_products n draw).map (·.product_id) =
      (List.range' 1 n).map (fun i => "prod_" ++ toString i)) ∧
    ∀ p ∈ generate_products n draw,
      10 ≤ p.price ∧ p.price ≤ 500 ∧ ∃ m : Int, p.price = (m : Rat) / 100 := by
  constructor
  · simp [generate_products]
  · intro p hp
    rw [generate_products, List.mem_map] at hp
    obtain ⟨i, _, hip⟩ := hp
    subst hip
    have hb := pyuniform_le 10 500 (draw i) (by norm_num)
    have hr := round2_bounds 10 500 (pyuniform 10 500 (draw i)) hb.1 hb.2
      1000 50000 (by norm_num) (by norm_num)
    exact ⟨hr.1, hr.2, round ((pyuniform 10 500 (draw i)) * 100), rfl⟩

/-- Witness for C8: `n = 1` with the constant-zero price oracle. -/
theorem claim_C8_witness :
    ((generate_products 1 (fun _ => 0)).map (·.product_id) =
      (List.range' 1 1).map (fun i => "prod_" ++ toString i)) ∧
    ∀ p ∈ generate_products 1 (fun _ => 0),
      10 ≤ p.price ∧ p.price ≤ 500 ∧ ∃ m : Int, p.price = (m : Rat) / 100 :=
  claim_C8 1 (by decide) (fun _ => 0)

/-- C10: `log_event` falls back to the whole input dict for the `data` field
when no `data` key is present, fills `ip_address`/`user_agent` with freshly
generated defaults when absent, always produces exactly the nine fields in
source order, and stamps the fresh session id of the call. -/
theorem claim_C10 (ts : Rat) (fr : LogFresh) (et : String) (data : Dict) :
    (dget data "data" = none → (log_event ts fr et data).data = Val.obj data) ∧
    (dget data "ip_address" = none →
      (log_event ts fr et data).ip_address = Val.str (generate_ip fr.ipo)) ∧
    (dget data "user_agent" = none →
      (log_event ts fr et data).user_agent =
        Val.str (generate_user_agent (dget data "device_type") fr.uaIx)) ∧
    dkeys (entryDict (log_event ts fr et data)) =
      ["timestamp", "event_type", "session_id", "user_id", "ip_address",
       "user_agent", "geo", "device_type", "data"] ∧
    (log_event ts fr et data).session_id = fr.sid := by
  refine ⟨fun h => ?_, fun h => ?_, fun h => ?_, rfl, rfl⟩ <;>
    simp [log_event, dgetD, h]

/-- A concrete `log_event` input dict with `user_id`, `geo` and `device_type`
keys but no `data`, `ip_address` or `user_agent` key. -/
def sampleData : Dict :=
  [("user_id", Val.str "u1"), ("geo", Val.obj [("country", Val.str "FR")]),
   ("device_type", Val.str "desktop")]

/-- Witness for C10 at a concrete call. -/
theorem claim_C10_witness :
    (dget sampleData "data" = none →
      (log_event 0 ⟨"sid", (1, 2, 3, 4), 0⟩ "login" sampleData).data =
        Val.obj sampleData) ∧
    (dget sampleData "ip_address" = none →
      (log_event 0 ⟨"sid", (1, 2, 3, 4), 0⟩ "login" sampleData).ip_address =
        Val.str (generate_ip (1, 2, 3, 4))) ∧
    (dget sampleData "user_agent" = none →
      (log_event 0 ⟨"sid", (1, 2, 3, 4), 0⟩ "login" sampleData).user_agent =
        Val.str (generate_user_agent (dget sampleData "device_type") 0)) ∧
    dkeys (entryDict (log_event 0 ⟨"sid", (1, 2, 3, 4), 0⟩ "login" sampleData)) =
      ["timestamp", "event_type", "session_id", "user_id", "ip_address",
       "user_agent", "geo", "device_type", "data"] ∧
    (log_event 0 ⟨"sid", (1, 2, 3, 4), 0⟩ "login" sampleData).session_id = "sid" :=
  claim_C10 0 ⟨"sid", (1, 2, 3, 4), 0⟩ "login" sampleData

/- ## Lemmas about the `random.sample` model -/

theorem getElem_cons_eraseIdx_perm (l : List α) (i : Nat) (h : i < l.length) :
    l[i] :: l.eraseIdx i ~ l := by
  rw [List.eraseIdx_eq_take_drop_succ]
  calc l[i] :: (l.take i ++ l.drop (i + 1)) ~ l.take i ++ l[i] :: l.drop (i + 1) :=
        List.perm_middle.symm
    _ = l.take i ++ l.drop i := by rw [List.getElem_cons_drop]
    _ = l := List.take_append_drop i l

theorem subperm_cons_both {l₁ l₂ : List α} (a : α) (h : List.Subperm l₁ l₂) :
    List.Subperm (a :: l₁) (a :: l₂) := by
  obtain ⟨w, pw, sw⟩ := h
  exact ⟨a :: w, pw.cons a, sw.cons₂ a⟩

theorem sampleAux_subperm (g : Nat → Nat) (s k : Nat) (l : List α) :
    List.Subperm (sampleAux g s k l) l := by
  induction k generalizing s l with
  | zero => simp [sampleAux]
  | succ k ih =>
    cases l with
    | nil => simp [sampleAux]
    | cons x xs =>
      rw [sampleAux]
      have hlen : g s % (x :: xs).length < (x :: xs).length :=
        Nat.mod_lt _ (Nat.succ_pos _)
      have hp := getElem_cons_eraseIdx_perm (x :: xs) (g s % (x :: xs).length) hlen
      have h1 := ih (s + 1) ((x :: xs).eraseIdx (g s % (x :: xs).length))
      exact ((subperm_cons_both _ h1).trans hp.subperm)

theorem sampleAux_length (g : Nat → Nat) (s k : Nat) (l : List α) :
    (sampleAux g s k l).length = min k l.length := by
  induction k generalizing s l with
  | zero => simp [sampleAux]
  | succ k ih =>
    cases l with
    | nil => simp [sampleAux]
    | cons x xs =>
      rw [sampleAux]
      have hlen : g s % (x :: xs).length < (x :: xs).length :=
        Nat.mod_lt _ (Nat.succ_pos _)
      have h1 := ih (s + 1) ((x :: xs).eraseIdx (g s % (x :: xs).length))
      have h2 := List.length_eraseIdx_of_lt hlen
      simp only [List.length_cons] at h1 h2 ⊢
      omega

theorem subperm_map_both (f : α → β) {l₁ l₂ : List α} (h : List.Subperm l₁ l₂) :
    List.Subperm (l₁.map f) (l₂.map f) := by
  obtain ⟨w, pw, sw⟩ := h
  exact ⟨w.map f, pw.map f, sw.map f⟩

theorem subperm_nodup_of {l₁ l₂ : List α} (h : List.Subperm l₁ l₂) (hn : l₂.Nodup) :
    l₁.Nodup := by
  obtain ⟨w, pw, sw⟩ := h
  exact pw.nodup_iff.mp (hn.sublist sw)

theorem pysample_ok (xs : List α) (k : Nat) (g : Nat → Nat) (res : List α)
    (h : pysample xs k g = .ok res) :
    res.length = k ∧ List.Subperm res xs := by
  unfold pysample at h
  split at h
  · exact absurd h (by simp)
  · next hc =>
    cases h
    refine ⟨?_, sampleAux_subperm g 0 k xs⟩
    rw [sampleAux_length]
    omega

/-- Emitters wrap their event-specific dict `d` as the `data` value. -/
theorem log_event_data_payload (ts : Rat) (fr : LogFresh) (et : String)
    (user : User) (d : Dict) :
    (log_event ts fr et (payload user d)).data = Val.obj d := by
  simp [log_event, payload, dgetD, dget, List.find?]

/-- Reduction of `action_data` at the `purchase` emitter. -/
theorem action_data_purchase (products : List Product) (user : User) (r : EmitRand) :
    action_data products user "purchase" r =
      (pysample products (pyrandint 1 3 r.rint) r.sel).bind fun items =>
        Except.ok [("user_id", Val.str user.user_id), ("order_id", Val.str r.oid),
          ("amount", Val.rat (round2 ((items.map (·.price)).sum))),
          ("items", itemsVal items)] := rfl

/-- C2: every event emitted by `purchase(user)` lists between 1 and 3 items
with pairwise-distinct product ids, drawn from the product pool without
repetition, and its `amount` equals the rounded sum of the listed prices. -/
theorem claim_C2 (app : App) (user : User) (r : EmitRand) (app' : App)
    (hnd : (app.products.map (·.product_id)).Nodup)
    (hok : dispatch app user "purchase" r = .ok app') :
    ∃ (items : List Product) (e : Entry),
      app'.logs = app.logs ++ [e] ∧
      e.event_type = "purchase" ∧
      e.data = Val.obj
        [("user_id", Val.str user.user_id), ("order_id", Val.str r.oid),
         ("amount", Val.rat (round2 ((items.map (·.price)).sum))),
         ("items", itemsVal items)] ∧
      1 ≤ items.length ∧ items.length ≤ 3 ∧
      (items.map (·.product_id)).Nodup ∧
      List.Subperm items app.products := by
  rw [dispatch, action_data_purchase] at hok
  rcases hs : pysample app.products (pyrandint 1 3 r.rint) r.sel with m | items
  · rw [hs] at hok
    exact absurd hok (by simp [Except.bind, Except.map])
  · rw [hs] at hok
    simp only [Except.bind, Except.map] at hok
    obtain ⟨hlen, hsub⟩ := pysample_ok _ _ _ _ hs
    cases hok
    refine ⟨items, _, rfl, rfl, log_event_data_payload _ _ _ _ _, ?_, ?_, ?_, hsub⟩
    · rw [hlen]; unfold pyrandint; omega
    · rw [hlen]; unfold pyrandint; omega
    · exact subperm_nodup_of (subperm_map_both _ hsub) hnd

/-- A fixed user for concrete runs. -/
def user0 : User := ⟨"u1", Val.obj [("country", Val.str "FR")], "desktop"⟩

/-- A two-product pool priced 12.50 and 99.99. -/
def products2 : List Product :=
  [⟨"prod_1", "Product 1", 25/2⟩, ⟨"prod_2", "Product 2", 9999/100⟩]

/-- A concrete engine state at hour 19 with the two-product pool. -/
def app0 : App :=
  { logs := [], users := [user0], products := products2, current_time := 19 * 3600 }

def fresh0 : LogFresh := ⟨"sid", (1, 2, 3, 4), 0⟩

/-- Concrete emitter randomness: `randint` raw 1 (so `k = 2`), selection
stream constantly 0. -/
def r0 : EmitRand := { fresh := fresh0, ix := 0, rint := 1, oid := "oid", sel := fun _ => 0 }

/-- The state after the concrete purchase dispatch. -/
def app0' : App :=
  match dispatch app0 user0 "purchase" r0 with
  | .ok a => a
  | .error _ => app0

/-- Witness for C2: a concrete purchase over the pool priced 12.50 and 99.99,
together with the amount computation `12.50 + 99.99 = 112.49` after rounding. -/
theorem claim_C2_witness :
    (∃ (items : List Product) (e : Entry),
      app0'.logs = app0.logs ++ [e] ∧
      e.event_type = "purchase" ∧
      e.data = Val.obj
        [("user_id", Val.str user0.user_id), ("order_id", Val.str r0.oid),
         ("amount", Val.rat (round2 ((items.map (·.price)).sum))),
         ("items", itemsVal items)] ∧
      1 ≤ items.length ∧ items.length ≤ 3 ∧
      (items.map (·.product_id)).Nodup ∧
      List.Subperm items app0.products) ∧
    round2 ((25/2 : Rat) + 9999/100) = 11249/100 :=
  ⟨claim_C2 app0 user0 r0 app0' (by decide) rfl,
   by rw [round2]; norm_num [round_eq]⟩

/- ## The journey loop, described in closed form -/

/-- The clock advance of one loop iteration: `uniform(30,120) / load_factor`. -/
def step_adv (lf : Rat) (sr : StepRand) : Rat := pyuniform 30 120 sr.adv / lf

/-- The action drawn by one loop iteration (`random.choice(actions)`). -/
def step_act (actions : List String) (sr : StepRand) : String :=
  actions.getD (sr.actIx % actions.length) ""

/-- The single entry one loop iteration appends at clock `t`: the emitter's
entry on success, the synthetic `error` entry when the emitter raises. -/
def step_entry (products : List Product) (user : User) (act : String)
    (sr : StepRand) (t : Rat) : Entry :=
  match action_data products user act sr.er with
  | .ok d => log_event t sr.er.fresh act (payload user d)
  | .error m => journey_error_entry t sr.errFresh user m

/-- The entries appended by the loop iterations `idxs`, starting at clock `t`. -/
def loop_entries (lf : Rat) (user : User) (actions : List String)
    (products : List Product) (jr : JourneyRand) : List Nat → Rat → List Entry
  | [], _ => []
  | i :: rest, t =>
      step_entry products user (step_act actions (jr.steps i)) (jr.steps i) t ::
        loop_entries lf user actions products jr rest (t + step_adv lf (jr.steps i))

/-- The clock value after running the loop iterations `idxs` from clock `t`. -/
def loop_time (lf : Rat) (jr : JourneyRand) : List Nat → Rat → Rat
  | [], t => t
  | i :: rest, t => loop_time lf jr rest (t + step_adv lf (jr.steps i))

theorem except_bind_ok (v : α) (f : α → Except ε β) :
    (Except.ok v >>= f : Except ε β) = f v := rfl

theorem except_map_ok (f : α → β) (v : α) :
    Except.map f (Except.ok v : Except ε α) = .ok (f v) := rfl

theorem except_map_error (f : α → β) (m : ε) :
    Except.map f (Except.error m : Except ε α) = .error m := rfl

theorem except_bind_error (m : ε) (f : α → Except ε β) :
    (Except.error m >>= f : Except ε β) = .error m := rfl

theorem step_entry_timestamp (products : List Product) (user : User)
    (act : String) (sr : StepRand) (t : Rat) :
    (step_entry products user act sr t).timestamp = t := by
  unfold step_entry
  cases action_data products user act sr.er <;> rfl

theorem journeyStep_ok (lf : Rat) (user : User) (actions : List String)
    (hne : actions ≠ []) (a : App) (sr : StepRand) :
    journeyStep lf user actions a sr =
      .ok { a with
            logs := a.logs ++
              [step_entry a.products user (step_act actions sr) sr a.current_time],
            current_time := a.current_time + step_adv lf sr } := by
  cases actions with
  | nil => exact absurd rfl hne
  | cons x xs =>
    have hlt : sr.actIx % (xs.length + 1) < xs.length + 1 :=
      Nat.mod_lt _ (Nat.succ_pos _)
    have hact : step_act (x :: xs) sr = (x :: xs)[sr.actIx % (xs.length + 1)] := by
      simp only [step_act, List.getD_eq_getElem?_getD, List.length_cons]
      rw [List.getElem?_eq_getElem (show sr.actIx % (xs.length + 1) < (x :: xs).length from hlt)]
      rfl
    have hch : pychoice (x :: xs) sr.actIx =
        .ok ((x :: xs)[sr.actIx % (xs.length + 1)]) := rfl
    cases hAD : action_data a.products user ((x :: xs)[sr.actIx % (xs.length + 1)]) sr.er with
    | ok d =>
      simp [journeyStep, hch, dispatch, hAD, step_entry, hact, appLog, step_adv,
        except_bind_ok, except_map_ok]
    | error m =>
      simp [journeyStep, hch, dispatch, hAD, step_entry, hact, appLog, step_adv,
        except_bind_ok, except_map_error]

theorem foldlM_journey (lf : Rat) (user : User) (actions : List String)
    (hne : actions ≠ []) (jr : JourneyRand) :
    ∀ (idxs : List Nat) (a : App),
    (idxs.foldlM (fun a i => journeyStep lf user actions a (jr.steps i)) a) =
      .ok { a with
            logs := a.logs ++
              loop_entries lf user actions a.products jr idxs a.current_time,
            current_time := loop_time lf jr idxs a.current_time } := by
  intro idxs
  induction idxs with
  | nil => intro a; simp only [List.foldlM_nil, loop_entries, loop_time, List.append_nil]; rfl
  | cons i rest ih =>
    intro a
    rw [List.foldlM_cons, journeyStep_ok lf user actions hne a (jr.steps i),
      except_bind_ok, ih]
    simp [loop_entries, loop_time, List.append_assoc]

/-- `time_based_actions` never returns the empty list. -/
theorem time_based_actions_ne_nil (app : App) : time_based_actions app ≠ [] := by
  dsimp only [time_based_actions]
  split_ifs <;> simp

/-- `login` is never an action candidate. -/
theorem login_not_mem_time_based_actions (app : App) :
    "login" ∉ time_based_actions app := by
  dsimp only [time_based_actions]
  split_ifs <;> decide

/-- The closed form of `simulate_user_journey`: the journey logs a `login`
entry at the start clock, one entry per loop iteration, and a final `logout`
entry at the post-loop clock. -/
theorem simulate_user_journey_spec (app : App) (lf : Rat) (start : Option Rat)
    (jr : JourneyRand) (user : User)
    (hu : pychoice app.users jr.userIx = .ok user) :
    simulate_user_journey app lf start jr =
      .ok { app with
            logs := app.logs ++
              [log_event (start.getD app.current_time) jr.loginFresh "login"
                 (payload user [("user_id", Val.str user.user_id)])] ++
              loop_entries lf user
                (time_based_actions { app with current_time := start.getD app.current_time })
                app.products jr (List.range (journey_count lf jr.countRaw))
                (start.getD app.current_time) ++
              [log_event
                 (loop_time lf jr (List.range (journey_count lf jr.countRaw))
                   (start.getD app.current_time))
                 jr.logoutFresh "logout"
                 (payload user [("user_id", Val.str user.user_id)])],
            current_time :=
              loop_time lf jr (List.range (journey_count lf jr.countRaw))
                (start.getD app.current_time) } := by
  have main : ∀ (b : App), pychoice b.users jr.userIx = .ok user →
      simulate_user_journey b lf none jr =
        .ok { b with
              logs := b.logs ++
                [log_event b.current_time jr.loginFresh "login"
                   (payload user [("user_id", Val.str user.user_id)])] ++
                loop_entries lf user (time_based_actions b) b.products jr
                  (List.range (journey_count lf jr.countRaw)) b.current_time ++
                [log_event
                   (loop_time lf jr (List.range (journey_count lf jr.countRaw))
                     b.current_time)
                   jr.logoutFresh "logout"
                   (payload user [("user_id", Val.str user.user_id)])],
              current_time :=
                loop_time lf jr (List.range (journey_count lf jr.countRaw))
                  b.current_time } := by
    intro b hub
    rw [simulate_user_journey]
    show (pychoice b.users jr.userIx >>= fun u => _) = _
    rw [hub, except_bind_ok]
    dsimp only
    have htba : time_based_actions (appLog b
        (log_event b.current_time jr.loginFresh "login"
          (payload user [("user_id", Val.str user.user_id)]))) =
        time_based_actions b := rfl
    rw [foldlM_journey lf user _ (time_based_actions_ne_nil _) jr
      (List.range (journey_count lf jr.countRaw))
      (appLog b (log_event b.current_time jr.loginFresh "login"
        (payload user [("user_id", Val.str user.user_id)]))),
      except_bind_ok, htba]
    simp [appLog, List.append_assoc]
  cases start with
  | none => exact main app hu
  | some t =>
    have h : simulate_user_journey app lf (some t) jr =
        simulate_user_journey { app with current_time := t } lf none jr := rfl
    rw [h, main { app with current_time := t } hu]
    rfl

theorem loop_entries_length (lf : Rat) (user : User) (actions : List String)
    (products : List Product) (jr : JourneyRand) :
    ∀ (idxs : List Nat) (t : Rat),
      (loop_entries lf user actions products jr idxs t).length = idxs.length := by
  intro idxs
  induction idxs with
  | nil => intro t; rfl
  | cons i rest ih => intro t; simp [loop_entries, ih]

theorem step_act_mem (actions : List String) (hne : actions ≠ []) (sr : StepRand) :
    step_act actions sr ∈ actions := by
  cases actions with
  | nil => exact absurd rfl hne
  | cons x xs =>
    have hlt : sr.actIx % (xs.length + 1) < (x :: xs).length :=
      Nat.mod_lt _ (Nat.succ_pos _)
    rw [step_act, List.getD_eq_getElem?_getD, List.length_cons,
      List.getElem?_eq_getElem hlt]
    exact List.getElem_mem _

theorem step_entry_event_type (products : List Product) (user : User)
    (act : String) (sr : StepRand) (t : Rat) :
    (step_entry products user act sr t).event_type = act ∨
    (step_entry products user act sr t).event_type = "error" := by
  unfold step_entry
  cases action_data products user act sr.er with
  | ok d => exact Or.inl rfl
  | error m => exact Or.inr rfl

theorem loop_entries_event_type (lf : Rat) (user : User) (actions : List String)
    (hne : actions ≠ []) (products : List Product) (jr : JourneyRand) :
    ∀ (idxs : List Nat) (t : Rat) (e : Entry),
      e ∈ loop_entries lf user actions products jr idxs t →
      e.event_type ∈ actions ∨ e.event_type = "error" := by
  intro idxs
  induction idxs with
  | nil => intro t e he; exact absurd he (by simp [loop_entries])
  | cons i rest ih =>
    intro t e he
    rw [loop_entries, List.mem_cons] at he
    rcases he with he | he
    · subst he
      rcases step_entry_event_type products user (step_act actions (jr.steps i))
        (jr.steps i) t with h | h
      · rw [h]; exact Or.inl (step_act_mem actions hne (jr.steps i))
      · exact Or.inr h
    · exact ih _ _ he

/-- C1: a journey with positive load factor appends a block of events that
starts with exactly one `login`, ends with a `logout`, and has exactly
`int(randint(5,15) * load_factor)` events strictly in between (so between 5
and 15 of them when the load factor is 1). -/
theorem claim_C1 (app : App) (lf : Rat) (hlf : 0 < lf) (start : Option Rat)
    (jr : JourneyRand) (user : User)
    (hu : pychoice app.users jr.userIx = .ok user) :
    ∃ (app' : App) (appended : List Entry),
      simulate_user_journey app lf start jr = .ok app' ∧
      app'.logs = app.logs ++ appended ∧
      (appended.map (·.event_type)).head? = some "login" ∧
      (appended.map (·.event_type)).getLast? = some "logout" ∧
      (appended.map (·.event_type)).count "login" = 1 ∧
      (((appended.drop 1).dropLast.length : Int) =
        pyint ((pyrandint 5 15 jr.countRaw : Nat) * lf)) ∧
      (lf = 1 → 5 ≤ (appended.drop 1).dropLast.length ∧
        (appended.drop 1).dropLast.length ≤ 15) := by
  have hspec := simulate_user_journey_spec app lf start jr user hu
  set t0 := start.getD app.current_time with ht0
  set actions := time_based_actions { app with current_time := t0 } with hacts
  set count := journey_count lf jr.countRaw with hcount
  set es := loop_entries lf user actions app.products jr (List.range count) t0 with hes
  set tEnd := loop_time lf jr (List.range count) t0 with htEnd
  set loginE := log_event t0 jr.loginFresh "login"
    (payload user [("user_id", Val.str user.user_id)]) with hloginE
  set logoutE := log_event tEnd jr.logoutFresh "logout"
    (payload user [("user_id", Val.str user.user_id)]) with hlogoutE
  have h1 : loginE.event_type = "login" := by rw [hloginE]; exact rfl
  have h2 : logoutE.event_type = "logout" := by rw [hlogoutE]; exact rfl
  refine ⟨_, [loginE] ++ es ++ [logoutE], hspec, by simp [List.append_assoc], ?_, ?_, ?_, ?_, ?_⟩
  · simp [h1]
  · simp only [List.map_append, List.map_cons, List.map_nil]
    rw [List.getLast?_concat, h2]
  · have hnotin : "login" ∉ (es.map (·.event_type)) := by
      rw [List.mem_map]
      rintro ⟨e, he, het⟩
      rcases loop_entries_event_type lf user actions
          (time_based_actions_ne_nil _) app.products jr _ _ e he with h | h
      · rw [het] at h
        exact login_not_mem_time_based_actions _ h
      · rw [het] at h
        exact absurd h (by decide)
    simp only [List.map_append, List.map_cons, List.map_nil, List.count_append,
      h1, h2]
    rw [List.count_eq_zero.mpr hnotin]
    decide
  · have hlen : es.length = count := by
      rw [hes, loop_entries_length, List.length_range]
    have hdrop : (([loginE] ++ es ++ [logoutE]).drop 1).dropLast = es := by
      rw [List.append_assoc, List.singleton_append, List.drop_one, List.tail_cons,
        List.dropLast_concat]
    rw [hdrop, hlen, hcount, journey_count]
    have hq : (0 : Rat) ≤ (pyrandint 5 15 jr.countRaw : Nat) * lf :=
      mul_nonneg (Nat.cast_nonneg _) hlf.le
    have hfl : (0 : Int) ≤ pyint ((pyrandint 5 15 jr.countRaw : Nat) * lf) := by
      rw [pyint, if_pos hq]
      exact Int.floor_nonneg.mpr hq
    exact Int.toNat_of_nonneg hfl
  · intro hlf1
    have hdrop : (([loginE] ++ es ++ [logoutE]).drop 1).dropLast = es := by
      rw [List.append_assoc, List.singleton_append, List.drop_one, List.tail_cons,
        List.dropLast_concat]
    have hlen : es.length = count := by
      rw [hes, loop_entries_length, List.length_range]
    have hc : count = pyrandint 5 15 jr.countRaw := by
      rw [hcount, journey_count, hlf1, mul_one, pyint,
        if_pos (by positivity : (0:Rat) ≤ (pyrandint 5 15 jr.countRaw : Nat)),
        Int.floor_natCast, Int.toNat_natCast]
    rw [hdrop, hlen, hc]
    unfold pyrandint
    omega

/-- Concrete journey randomness: user index 0, `randint` raw 0 (so 5
iterations at load factor 1), constant steps choosing action index 0 with
zero advance draws. -/
def jr0 : JourneyRand :=
  { userIx := 0, loginFresh := fresh0, countRaw := 0,
    steps := fun _ => { actIx := 0, er := r0, errFresh := fresh0, adv := 0 },
    logoutFresh := fresh0 }

/-- Witness for C1: a concrete journey at load factor 1 from clock 0. -/
theorem claim_C1_witness :
    ∃ (app' : App) (appended : List Entry),
      simulate_user_journey app0 1 (some 0) jr0 = .ok app' ∧
      app'.logs = app0.logs ++ appended ∧
      (appended.map (·.event_type)).head? = some "login" ∧
      (appended.map (·.event_type)).getLast? = some "logout" ∧
      (appended.map (·.event_type)).count "login" = 1 ∧
      (((appended.drop 1).dropLast.length : Int) =
        pyint ((pyrandint 5 15 jr0.countRaw : Nat) * 1)) ∧
      ((1 : Rat) = 1 → 5 ≤ (appended.drop 1).dropLast.length ∧
        (appended.drop 1).dropLast.length ≤ 15) :=
  claim_C1 app0 1 one_pos (some 0) jr0 user0 rfl

theorem loop_time_append (lf : Rat) (jr : JourneyRand) :
    ∀ (xs ys : List Nat) (t : Rat),
      loop_time lf jr (xs ++ ys) t = loop_time lf jr ys (loop_time lf jr xs t) := by
  intro xs
  induction xs with
  | nil => intro ys t; rfl
  | cons i rest ih => intro ys t; simp [loop_time, ih]

theorem loop_entries_append (lf : Rat) (user : User) (actions : List String)
    (products : List Product) (jr : JourneyRand) :
    ∀ (xs ys : List Nat) (t : Rat),
      loop_entries lf user actions products jr (xs ++ ys) t =
        loop_entries lf user actions products jr xs t ++
          loop_entries lf user actions products jr ys (loop_time lf jr xs t) := by
  intro xs
  induction xs with
  | nil => intro ys t; rfl
  | cons i rest ih => intro ys t; simp [loop_entries, loop_time, ih]

theorem loop_entries_getElem (lf : Rat) (user : User) (actions : List String)
    (products : List Product) (jr : JourneyRand) (count i : Nat) (hi : i < count)
    (t : Rat) :
    (loop_entries lf user actions products jr (List.range count) t)[i]? =
      some (step_entry products user (step_act actions (jr.steps i)) (jr.steps i)
        (loop_time lf jr (List.range i) t)) := by
  obtain ⟨m, hm⟩ : ∃ m, count = i + (m + 1) := ⟨count - i - 1, by omega⟩
  have hsplit : List.range count =
      List.range i ++ i :: ((List.range m).map (fun x => i + (x + 1))) := by
    subst hm
    rw [List.range_add]
    congr 1
    rw [List.range_succ_eq_map]
    simp [List.map_map]
  rw [hsplit, loop_entries_append,
    List.getElem?_append_right (by rw [loop_entries_length, List.length_range]),
    loop_entries_length, List.length_range, Nat.sub_self, loop_entries]
  exact List.getElem?_cons_zero

/-- C4: when the emitter chosen at iteration `i` raises with message `m`, the
journey driver catches it, appends for that iteration exactly one `error`
event whose payload carries `error_code 0` and the raised message, and the
journey still runs to completion, ending with `logout`. -/
theorem claim_C4 (app : App) (lf : Rat) (start : Option Rat) (jr : JourneyRand)
    (user : User) (hu : pychoice app.users jr.userIx = .ok user)
    (i : Nat) (hi : i < journey_count lf jr.countRaw) (m : String)
    (hfail : action_data app.products user
        (step_act (time_based_actions { app with current_time := start.getD app.current_time })
          (jr.steps i)) (jr.steps i).er = .error m) :
    ∃ (app' : App) (appended : List Entry) (t : Rat),
      simulate_user_journey app lf start jr = .ok app' ∧
      app'.logs = app.logs ++ appended ∧
      appended.length = journey_count lf jr.countRaw + 2 ∧
      appended[i + 1]? = some (journey_error_entry t (jr.steps i).errFresh user m) ∧
      (journey_error_entry t (jr.steps i).errFresh user m).event_type = "error" ∧
      (journey_error_entry t (jr.steps i).errFresh user m).data =
        Val.obj [("error_code", Val.int 0), ("error_message", Val.str m)] ∧
      (appended.map (·.event_type)).getLast? = some "logout" := by
  have hspec := simulate_user_journey_spec app lf start jr user hu
  set t0 := start.getD app.current_time with ht0
  set actions := time_based_actions { app with current_time := t0 } with hacts
  set count := journey_count lf jr.countRaw with hcount
  set es := loop_entries lf user actions app.products jr (List.range count) t0 with hes
  set tEnd := loop_time lf jr (List.range count) t0 with htEnd
  set loginE := log_event t0 jr.loginFresh "login"
    (payload user [("user_id", Val.str user.user_id)]) with hloginE
  set logoutE := log_event tEnd jr.logoutFresh "logout"
    (payload user [("user_id", Val.str user.user_id)]) with hlogoutE
  have hlen : es.length = count := by rw [hes, loop_entries_length, List.length_range]
  have h2 : logoutE.event_type = "logout" := by rw [hlogoutE]; exact rfl
  refine ⟨_, [loginE] ++ es ++ [logoutE], loop_time lf jr (List.range i) t0,
    hspec, by simp [List.append_assoc], ?_, ?_, ?_, ?_, ?_⟩
  · simp only [List.length_append, List.length_cons, List.length_nil, hlen]
    omega
  · have h1 : i + 1 < ([loginE] ++ es).length := by
      simp only [List.length_append, List.length_cons, List.length_nil, hlen]
      omega
    rw [List.getElem?_append_left h1, List.singleton_append,
      List.getElem?_cons_succ, hes,
      loop_entries_getElem lf user actions app.products jr count i hi t0]
    simp [step_entry, hfail]
  · rfl
  · simp [journey_error_entry, log_event, dgetD, dget, List.find?]
  · simp only [List.map_append, List.map_cons, List.map_nil]
    rw [List.getLast?_concat, h2]

/-- An engine state with an empty product pool (the boundary at which the
product-reading emitters raise). -/
def appE : App := { logs := [], users := [user0], products := [], current_time := 0 }

/-- Journey randomness always choosing action index 7 (`product_view` in the
morning band). -/
def jrE : JourneyRand :=
  { userIx := 0, loginFresh := fresh0, countRaw := 0,
    steps := fun _ => { actIx := 7, er := r0, errFresh := fresh0, adv := 0 },
    logoutFresh := fresh0 }

/-- Witness for C4: with an empty product pool at hour 6, the `product_view`
emitter chosen at iteration 0 raises, and the journey converts it to an
`error` event and still completes. -/
theorem claim_C4_witness :
    ∃ (app' : App) (appended : List Entry) (t : Rat),
      simulate_user_journey appE 1 (some (6 * 3600)) jrE = .ok app' ∧
      app'.logs = appE.logs ++ appended ∧
      appended.length = journey_count 1 jrE.countRaw + 2 ∧
      appended[0 + 1]? = some (journey_error_entry t (jrE.steps 0).errFresh user0
        "Cannot choose from an empty sequence") ∧
      (journey_error_entry t (jrE.steps 0).errFresh user0
        "Cannot choose from an empty sequence").event_type = "error" ∧
      (journey_error_entry t (jrE.steps 0).errFresh user0
        "Cannot choose from an empty sequence").data =
        Val.obj [("error_code", Val.int 0),
          ("error_message", Val.str "Cannot choose from an empty sequence")] ∧
      (appended.map (·.event_type)).getLast? = some "logout" :=
  claim_C4 appE 1 (some (6 * 3600)) jrE user0 rfl 0
    (by simp [journey_count, pyrandint, pyint, jrE])
    "Cannot choose from an empty sequence"
    (by simp [appE, jrE, time_based_actions, hourOf, step_act, action_data,
      pychoice, r0, except_bind_error])

/- ## Clock behaviour within one journey -/

/-- The clock values at which the loop iterations `idxs` emit, from clock `t`. -/
def loop_times (lf : Rat) (jr : JourneyRand) : List Nat → Rat → List Rat
  | [], _ => []
  | i :: rest, t => t :: loop_times lf jr rest (t + step_adv lf (jr.steps i))

theorem loop_entries_timestamps (lf : Rat) (user : User) (actions : List String)
    (products : List Product) (jr : JourneyRand) :
    ∀ (idxs : List Nat) (t : Rat),
      (loop_entries lf user actions products jr idxs t).map (·.timestamp) =
        loop_times lf jr idxs t := by
  intro idxs
  induction idxs with
  | nil => intro t; rfl
  | cons i rest ih =>
    intro t
    rw [loop_entries, loop_times, List.map_cons, step_entry_timestamp, ih]

theorem loop_times_concat_head (lf : Rat) (jr : JourneyRand) :
    ∀ (idxs : List Nat) (t : Rat),
      (loop_times lf jr idxs t ++ [loop_time lf jr idxs t]).head? = some t
  | [], _ => rfl
  | _ :: _, _ => rfl

theorem step_adv_pos (lf : Rat) (hlf : 0 < lf) (sr : StepRand) :
    0 < step_adv lf sr := by
  unfold step_adv
  apply div_pos _ hlf
  have h := (pyuniform_le 30 120 sr.adv (by norm_num)).1
  linarith

theorem step_adv_bounds (lf : Rat) (hlf : 0 < lf) (sr : StepRand) :
    30 / lf ≤ step_adv lf sr ∧ step_adv lf sr ≤ 120 / lf := by
  unfold step_adv
  have h := pyuniform_le 30 120 sr.adv (by norm_num)
  exact ⟨(div_le_div_iff_of_pos_right hlf).mpr h.1,
    (div_le_div_iff_of_pos_right hlf).mpr h.2⟩

theorem loop_times_chain (lf : Rat) (jr : JourneyRand) (hlf : 0 < lf) :
    ∀ (idxs : List Nat) (t : Rat),
      List.Chain' (· < ·) (loop_times lf jr idxs t ++ [loop_time lf jr idxs t]) := by
  intro idxs
  induction idxs with
  | nil => intro t; simp [loop_times, loop_time]
  | cons i rest ih =>
    intro t
    rw [loop_times, loop_time, List.cons_append]
    apply (ih (t + step_adv lf (jr.steps i))).cons'
    intro y hy
    rw [loop_times_concat_head] at hy
    cases hy
    have := step_adv_pos lf hlf (jr.steps i)
    linarith

/-- C5 (amended): within one journey with positive load factor the clock is
advanced after every iteration by `uniform(30,120)/load_factor` — a value in
`[30/lf, 120/lf]` — so the event timestamps are non-decreasing, and they are
strictly increasing from the first loop event on; however the `login` event
and the event right after it carry the same timestamp, because the clock is
only advanced after an action, not between `login` and the first action. -/
theorem claim_C5 (app : App) (lf : Rat) (hlf : 0 < lf) (start : Option Rat)
    (jr : JourneyRand) (user : User)
    (hu : pychoice app.users jr.userIx = .ok user) :
    ∃ (app' : App) (appended : List Entry),
      simulate_user_journey app lf start jr = .ok app' ∧
      app'.logs = app.logs ++ appended ∧
      (∀ i, step_adv lf (jr.steps i) = pyuniform 30 120 (jr.steps i).adv / lf ∧
        30 / lf ≤ step_adv lf (jr.steps i) ∧ step_adv lf (jr.steps i) ≤ 120 / lf) ∧
      List.Chain' (· ≤ ·) (appended.map (·.timestamp)) ∧
      List.Chain' (· < ·) ((appended.map (·.timestamp)).tail) ∧
      (appended.map (·.timestamp)).head? = some (start.getD app.current_time) ∧
      (appended.map (·.timestamp))[1]? = some (start.getD app.current_time) := by
  have hspec := simulate_user_journey_spec app lf start jr user hu
  set t0 := start.getD app.current_time with ht0
  set actions := time_based_actions { app with current_time := t0 } with hacts
  set count := journey_count lf jr.countRaw with hcount
  set es := loop_entries lf user actions app.products jr (List.range count) t0 with hes
  set tEnd := loop_time lf jr (List.range count) t0 with htEnd
  set loginE := log_event t0 jr.loginFresh "login"
    (payload user [("user_id", Val.str user.user_id)]) with hloginE
  set logoutE := log_event tEnd jr.logoutFresh "logout"
    (payload user [("user_id", Val.str user.user_id)]) with hlogoutE
  have hts : (([loginE] ++ es ++ [logoutE]).map (·.timestamp)) =
      t0 :: (loop_times lf jr (List.range count) t0 ++ [tEnd]) := by
    rw [hes, hloginE, hlogoutE, htEnd]
    simp only [List.map_append, List.map_cons, List.map_nil,
      loop_entries_timestamps, List.append_assoc, List.singleton_append]
    rfl
  have hchain : List.Chain' (· < ·)
      (loop_times lf jr (List.range count) t0 ++ [tEnd]) := by
    rw [htEnd]
    exact loop_times_chain lf jr hlf (List.range count) t0
  have hhead : (loop_times lf jr (List.range count) t0 ++ [tEnd]).head? = some t0 := by
    rw [htEnd]
    exact loop_times_concat_head lf jr (List.range count) t0
  refine ⟨_, [loginE] ++ es ++ [logoutE], hspec, by simp [List.append_assoc],
    ?_, ?_, ?_, ?_, ?_⟩
  · intro i
    exact ⟨rfl, step_adv_bounds lf hlf (jr.steps i)⟩
  · rw [hts]
    refine (hchain.imp fun a b h => le_of_lt h).cons' ?_
    intro y hy
    rw [hhead] at hy
    cases hy
    exact le_refl t0
  · rw [hts]
    exact hchain
  · rw [hts]
    rfl
  · rw [hts, List.getElem?_cons_succ, ← List.head?_eq_getElem?]
    exact hhead

/-- Witness for the amended C5 at a concrete journey. -/
theorem claim_C5_witness :
    ∃ (app' : App) (appended : List Entry),
      simulate_user_journey app0 1 (some 0) jr0 = .ok app' ∧
      app'.logs = app0.logs ++ appended ∧
      (∀ i, step_adv 1 (jr0.steps i) = pyuniform 30 120 (jr0.steps i).adv / 1 ∧
        30 / 1 ≤ step_adv 1 (jr0.steps i) ∧ step_adv 1 (jr0.steps i) ≤ 120 / 1) ∧
      List.Chain' (· ≤ ·) (appended.map (·.timestamp)) ∧
      List.Chain' (· < ·) ((appended.map (·.timestamp)).tail) ∧
      (appended.map (·.timestamp)).head? = some ((some (0:Rat)).getD app0.current_time) ∧
      (appended.map (·.timestamp))[1]? = some ((some (0:Rat)).getD app0.current_time) :=
  claim_C5 app0 1 one_pos (some 0) jr0 user0 rfl

/-- The state produced by the concrete journey of `app0`/`jr0` from clock 0. -/
def c5app : App :=
  (simulate_user_journey app0 1 (some 0) jr0).toOption.getD app0

/-- Counterexample to C5 as stated: in the concrete journey from clock 0 the
event timestamps are not strictly increasing — the `login` event and the
first action's event are both stamped with the start clock, because the clock
is advanced only after each action. -/
theorem claim_C5_counterexample :
    simulate_user_journey app0 1 (some 0) jr0 = .ok c5app ∧
    ¬ List.Chain' (· < ·) (c5app.logs.map (·.timestamp)) := by
  have hspec := simulate_user_journey_spec app0 1 (some 0) jr0 user0 rfl
  have hok : simulate_user_journey app0 1 (some 0) jr0 = .ok c5app := by
    unfold c5app
    rw [hspec]
    rfl
  refine ⟨hok, ?_⟩
  have hc5 : c5app.logs.map (·.timestamp) =
      (0 : Rat) :: (loop_times 1 jr0 (List.range (journey_count 1 jr0.countRaw)) 0 ++
        [loop_time 1 jr0 (List.range (journey_count 1 jr0.countRaw)) 0]) := by
    unfold c5app
    rw [hspec]
    simp only [Except.toOption, Option.getD_some]
    simp only [List.map_append, List.map_cons, List.map_nil,
      loop_entries_timestamps, List.append_assoc, List.singleton_append,
      List.nil_append]
    rfl
  rw [hc5]
  have hcnt : journey_count 1 jr0.countRaw = 5 := by
    simp [journey_count, pyrandint, pyint, jr0]
  rw [hcnt, show List.range 5 = 0 :: [1, 2, 3, 4] from rfl, loop_times,
    List.cons_append]
  intro hch
  exact absurd (List.chain'_cons.mp hch).1 (lt_irrefl 0)

theorem loop_entries_event_type_of_ok (lf : Rat) (user : User)
    (actions : List String) (products : List Product) (jr : JourneyRand)
    (act : String) (h1 : ∀ i, step_act actions (jr.steps i) = act)
    (h2 : ∀ i, ∃ d, action_data products user act (jr.steps i).er = .ok d) :
    ∀ (idxs : List Nat) (t : Rat),
      (loop_entries lf user actions products jr idxs t).map (·.event_type) =
        List.replicate idxs.length act := by
  intro idxs
  induction idxs with
  | nil => intro t; rfl
  | cons i rest ih =>
    intro t
    rw [loop_entries, List.map_cons, ih, List.length_cons, List.replicate_succ]
    congr 1
    rw [h1 i]
    obtain ⟨d, hd⟩ := h2 i
    simp [step_entry, hd, log_event]

/-- Journey randomness always choosing action index 3 (`logout` in the
night band). -/
def jr9 : JourneyRand :=
  { userIx := 0, loginFresh := fresh0, countRaw := 0,
    steps := fun _ => { actIx := 3, er := r0, errFresh := fresh0, adv := 0 },
    logoutFresh := fresh0 }

/-- C9: in the night band `logout` is itself an action candidate, so there
are draws under which a journey emits `logout` events strictly between its
initial `login` and terminal `logout`; `logout` then occurs more than once
in the journey and does not by itself mark its end. -/
theorem claim_C9 :
    ("logout" ∈ time_based_actions app23) ∧
    ∃ (app' : App) (mid : List Entry),
      simulate_user_journey app0 1 (some (23 * 3600)) jr9 = .ok app' ∧
      app'.logs.map (·.event_type) =
        ["login"] ++ mid.map (·.event_type) ++ ["logout"] ∧
      "logout" ∈ mid.map (·.event_type) ∧
      (app'.logs.map (·.event_type)).count "logout" ≠ 1 := by
  constructor
  · simp [time_based_actions, hourOf, app23]
  have hspec := simulate_user_journey_spec app0 1 (some (23 * 3600)) jr9 user0 rfl
  set t0 := (some (23 * 3600 : Rat)).getD app0.current_time with ht0
  set actions := time_based_actions { app0 with current_time := t0 } with hacts
  set count := journey_count 1 jr9.countRaw with hcount
  set es := loop_entries 1 user0 actions app0.products jr9 (List.range count) t0 with hes
  set tEnd := loop_time 1 jr9 (List.range count) t0 with htEnd
  set loginE := log_event t0 jr9.loginFresh "login"
    (payload user0 [("user_id", Val.str user0.user_id)]) with hloginE
  set logoutE := log_event tEnd jr9.logoutFresh "logout"
    (payload user0 [("user_id", Val.str user0.user_id)]) with hlogoutE
  have h1t : loginE.event_type = "login" := by rw [hloginE]; exact rfl
  have h2t : logoutE.event_type = "logout" := by rw [hlogoutE]; exact rfl
  have hacts2 : actions = ["error", "error", "search", "logout"] := by
    rw [hacts, ht0]
    simp [time_based_actions, hourOf]
  have hcount2 : count = 5 := by
    rw [hcount]
    simp [journey_count, pyrandint, pyint, jr9]
  have h1 : ∀ i, step_act ["error", "error", "search", "logout"] (jr9.steps i) =
      "logout" := by
    intro i
    simp [step_act, jr9]
  have h2 : ∀ i, ∃ d, action_data app0.products user0 "logout" (jr9.steps i).er =
      .ok d := fun i => ⟨[("user_id", Val.str user0.user_id)], rfl⟩
  have hmapes : es.map (·.event_type) = List.replicate count "logout" := by
    rw [hes, hacts2,
      loop_entries_event_type_of_ok 1 user0 ["error", "error", "search", "logout"]
        app0.products jr9 "logout" h1 h2 (List.range count) t0,
      List.length_range]
  have hnil : app0.logs = [] := rfl
  refine ⟨_, es, hspec, ?_, ?_, ?_⟩
  · simp only [List.map_append, List.map_cons, List.map_nil, hnil,
      List.nil_append, h1t, h2t]
  · rw [hmapes, hcount2]
    simp
  · simp only [List.map_append, List.map_cons, List.map_nil, hnil,
      List.nil_append, h1t, h2t, List.count_append, hmapes, hcount2]
    decide

/- ## Serialization: `save_logs` via `json.dump`, and `json.loads`

`save_logs` serializes the buffer with `json.dump(self.logs, f, indent=2)`;
the dashboard re-reads it with `json.loads`.  We model the serialized text as
a character list.  The printer below emits the same tokens as `json.dump`
(indentation whitespace is elided; the parser skips whitespace, as
`json.loads` does, so the model covers the pretty-printed form up to the
placement of the elided whitespace).  Escaping is not modelled: the
serializable well-formedness predicate `ValWF` restricts strings to
characters that `json.dump` emits verbatim, which covers every string the
generator produces. -/

def digitChar (d : Nat) : Char := Char.ofNat (48 + d)

def digitVal (c : Char) : Nat := c.toNat - 48

def isDigitCh (c : Char) : Bool := 48 ≤ c.toNat && c.toNat ≤ 57

def isWsCh (c : Char) : Bool := c == ' ' || c == '\n' || c == '\t' || c == '\r'

/-- The base-10 character rendering of a natural number. -/
def natChars (n : Nat) : List Char :=
  if n = 0 then ['0'] else (Nat.digits 10 n).reverse.map digitChar

/-- Digit values, most significant first, to a number. -/
def natFromDigits (ds : List Nat) : Nat := ds.foldl (fun a d => 10 * a + d) 0

/-- Scan a maximal run of digit characters. -/
def parseDigits : List Char → List Nat × List Char
  | [] => ([], [])
  | c :: r =>
    if isDigitCh c then
      let p := parseDigits r
      (digitVal c :: p.1, p.2)
    else ([], c :: r)

def skipWs : List Char → List Char
  | [] => []
  | c :: r => if isWsCh c then skipWs r else c :: r

/-- Scan the characters of a string literal up to the closing quote. -/
def parseStrChars : List Char → Option (List Char × List Char)
  | [] => none
  | c :: r =>
    if c = '"' then some ([], r)
    else (parseStrChars r).map fun p => (c :: p.1, p.2)

/-- No digit character at the head (a valid right context for a digit run). -/
def noDigFirst (r : List Char) : Prop :=
  ∀ c ∈ r.head?, isDigitCh c = false

theorem digitChar_props (d : Nat) (h : d < 10) :
    digitVal (digitChar d) = d ∧ isDigitCh (digitChar d) = true ∧
    isWsCh (digitChar d) = false ∧ digitChar d ≠ ']' ∧ digitChar d ≠ '\x7d' ∧
    digitChar d ≠ '"' ∧ digitChar d ≠ ',' ∧ digitChar d ≠ '.' ∧
    digitChar d ≠ '-' := by
  interval_cases d <;> exact ⟨rfl, rfl, rfl, by decide, by decide, by decide,
    by decide, by decide, by decide⟩

theorem skipWs_cons (c : Char) (r : List Char) (h : isWsCh c = false) :
    skipWs (c :: r) = c :: r := by
  simp [skipWs, h]

theorem parseDigits_spec (ds : List Nat) (hds : ∀ d ∈ ds, d < 10) :
    ∀ (rest : List Char), noDigFirst rest →
      parseDigits (ds.map digitChar ++ rest) = (ds, rest) := by
  induction ds with
  | nil =>
    intro rest hr
    cases rest with
    | nil => rfl
    | cons c t =>
      have hc := hr c rfl
      simp [parseDigits, hc]
  | cons d ds ih =>
    intro rest hr
    have hd := digitChar_props d (hds d (by simp))
    have ihh := ih (fun x hx => hds x (by simp [hx])) rest hr
    simp [parseDigits, hd.2.1, hd.1, ihh]

theorem natFromDigits_reverse (l : List Nat) :
    natFromDigits l.reverse = Nat.ofDigits 10 l := by
  induction l with
  | nil => rfl
  | cons d l ih =>
    rw [List.reverse_cons, natFromDigits, List.foldl_append, Nat.ofDigits_cons]
    rw [natFromDigits] at ih
    simp only [List.foldl_cons, List.foldl_nil]
    rw [ih]
    ring

theorem natChars_spec (n : Nat) :
    ∃ ds : List Nat, natChars n = ds.map digitChar ∧ (∀ d ∈ ds, d < 10) ∧
      ds ≠ [] ∧ natFromDigits ds = n := by
  by_cases hn : n = 0
  · subst hn
    exact ⟨[0], rfl, by simp, by simp, rfl⟩
  · refine ⟨(Nat.digits 10 n).reverse, by rw [natChars, if_neg hn], ?_, ?_, ?_⟩
    · intro d hd
      rw [List.mem_reverse] at hd
      exact Nat.digits_lt_base (by norm_num) hd
    · simp [Nat.digits_ne_nil_iff_ne_zero.mpr hn]
    · rw [natFromDigits_reverse, Nat.ofDigits_digits]

theorem natChars_len_le (n e : Nat) (he : 1 ≤ e) (h : n < 10 ^ e) :
    (natChars n).length ≤ e := by
  by_cases hn : n = 0
  · subst hn
    simp [natChars]
    omega
  · rw [natChars, if_neg hn, List.length_map, List.length_reverse]
    by_contra hlen
    push_neg at hlen
    have h1 : 10 ^ (Nat.digits 10 n).length ≤ 10 * n :=
      Nat.base_pow_length_digits_le 10 n (by norm_num) hn
    have h2 : 10 ^ (e + 1) ≤ 10 ^ (Nat.digits 10 n).length :=
      Nat.pow_le_pow_right (by norm_num) (by omega)
    have h3 : 10 * n < 10 * 10 ^ e := by omega
    rw [pow_succ] at h2
    omega

theorem parseStrChars_spec (s : List Char) (hs : ∀ c ∈ s, c ≠ '"') :
    ∀ (rest : List Char), parseStrChars (s ++ '"' :: rest) = some (s, rest) := by
  induction s with
  | nil => intro rest; simp [parseStrChars]
  | cons c t ih =>
    intro rest
    have hc : c ≠ '"' := hs c (by simp)
    have iht := ih (fun x hx => hs x (by simp [hx])) rest
    simp [parseStrChars, hc, iht]

/-- The base-10 character rendering of an integer (with a leading minus). -/
def intChars (m : Int) : List Char :=
  if m < 0 then '-' :: natChars m.natAbs else natChars m.natAbs

/-- The least exponent `e ≤ d` with `d ∣ 10^e`, when one exists (the
denominator of every binary float divides a power of ten). -/
def decExp (d : Nat) : Option Nat :=
  (List.range (d + 1)).find? fun e => 10 ^ e % d == 0

/-- A rational is serializable as a finite decimal. -/
def decOk (q : Rat) : Bool := (decExp q.den).isSome

/-- The decimal mantissa and exponent of a serializable rational: `(m, e)`
with `q = m / 10^e` and `e ≥ 1` (a float always prints at least one
fractional digit). -/
def ratMantExp (q : Rat) : Int × Nat :=
  match decExp q.den with
  | some e0 => ((q * (10 : Rat) ^ (max e0 1)).num, max e0 1)
  | none => (0, 1)

/-- The character rendering of a serializable rational, as `repr` of the
float: integer part, point, exactly `e` fractional digits. -/
def ratChars (q : Rat) : List Char :=
  (if (ratMantExp q).1 < 0 then ['-'] else []) ++
    natChars ((ratMantExp q).1.natAbs / 10 ^ (ratMantExp q).2) ++
    '.' :: (List.replicate
        ((ratMantExp q).2 -
          (natChars ((ratMantExp q).1.natAbs % 10 ^ (ratMantExp q).2)).length) '0' ++
      natChars ((ratMantExp q).1.natAbs % 10 ^ (ratMantExp q).2))

theorem ratMantExp_spec (q : Rat) (h : decOk q = true) :
    ((ratMantExp q).1 : Rat) = q * 10 ^ (ratMantExp q).2 ∧ 1 ≤ (ratMantExp q).2 := by
  rw [decOk, Option.isSome_iff_exists] at h
  obtain ⟨e0, he0⟩ := h
  have hdvd : q.den ∣ 10 ^ e0 := by
    have := List.find?_some he0
    exact Nat.dvd_of_mod_eq_zero (by simpa using this)
  set E := max e0 1 with hE
  have hdvdE : q.den ∣ 10 ^ E := hdvd.trans (pow_dvd_pow 10 (le_max_left e0 1))
  obtain ⟨c, hc⟩ := hdvdE
  have hden : ((q.den : Rat)) ≠ 0 := by
    have := q.den_pos
    positivity
  have hcast : ((10 : Rat)) ^ E = (q.den : Rat) * (c : Rat) := by
    have : ((10 ^ E : Nat) : Rat) = ((q.den * c : Nat) : Rat) := by rw [hc]
    push_cast at this
    simpa using this
  have hqd : q * (q.den : Rat) = (q.num : Rat) := by
    nth_rewrite 1 [← Rat.num_div_den q]
    exact div_mul_cancel₀ _ hden
  have hmul : q * (10 : Rat) ^ E = ((q.num * c : Int) : Rat) := by
    push_cast
    rw [hcast, ← mul_assoc, hqd]
  rw [ratMantExp, he0]
  refine ⟨?_, le_max_right e0 1⟩
  simp only [← hE, hmul, Rat.num_intCast]

/-- A character `json.dump` emits verbatim inside a string literal. -/
def jcharOk (c : Char) : Bool :=
  c ≠ '"' && c ≠ '\\' && 32 ≤ c.toNat && c.toNat < 127

def strOk (s : String) : Bool := s.data.all jcharOk

mutual

/-- The serialized JSON text of a value (`json.dump`, whitespace elided). -/
def printVal : Val → List Char
  | .null => ['n', 'u', 'l', 'l']
  | .str s => '"' :: s.data ++ ['"']
  | .int m => intChars m
  | .rat q => ratChars q
  | .arr vs => '[' :: printArrBody vs ++ [']']
  | .obj kvs => '\x7b' :: printObjBody kvs ++ ['\x7d']

/-- Array elements, comma-joined. -/
def printArrBody : List Val → List Char
  | [] => []
  | [v] => printVal v
  | v :: vs => printVal v ++ ',' :: printArrBody vs

/-- Object members `"key":value`, comma-joined. -/
def printObjBody : List (String × Val) → List Char
  | [] => []
  | [(k, v)] => '"' :: k.data ++ '"' :: ':' :: printVal v
  | (k, v) :: kvs =>
      '"' :: k.data ++ '"' :: ':' :: printVal v ++ ',' :: printObjBody kvs

end

mutual

/-- Values `json.dump` serializes losslessly under this model: strings made
of plain characters, rationals (floats) with a finite decimal expansion. -/
def ValWF : Val → Bool
  | .null => true
  | .str s => strOk s
  | .int _ => true
  | .rat q => decOk q
  | .arr vs => ValsWF vs
  | .obj kvs => ObjWF kvs

def ValsWF : List Val → Bool
  | [] => true
  | v :: vs => ValWF v && ValsWF vs

def ObjWF : List (String × Val) → Bool
  | [] => true
  | (k, v) :: kvs => strOk k && ValWF v && ObjWF kvs

end

/-- Parse an unsigned JSON number (integer, or decimal with a point). -/
def parseNumCore (s : List Char) : Option (Val × List Char) :=
  let p := parseDigits s
  if p.1 = [] then none
  else if p.2.head? = some '.' then
    let pf := parseDigits p.2.tail
    if pf.1 = [] then none
    else some (.rat
      ((((natFromDigits p.1 * 10 ^ pf.1.length + natFromDigits pf.1 : Nat) : Int) : Rat) /
        (10 : Rat) ^ pf.1.length), pf.2)
  else some (.int (natFromDigits p.1), p.2)

def valNeg : Val → Val
  | .int m => .int (-m)
  | .rat q => .rat (-q)
  | v => v

/-- Parse a JSON number with an optional leading minus. -/
def parseNum (s : List Char) : Option (Val × List Char) :=
  match s with
  | '-' :: r => (parseNumCore r).map fun p => (valNeg p.1, p.2)
  | _ => parseNumCore s

mutual

/-- Parse one JSON value (`json.loads`), with fuel bounding the nesting. -/
def parseVal : Nat → List Char → Option (Val × List Char)
  | 0, _ => none
  | fuel + 1, s =>
    match skipWs s with
    | [] => none
    | c :: r =>
      if c = '"' then (parseStrChars r).map fun p => (.str (String.mk p.1), p.2)
      else if c = '[' then (parseArr fuel r).map fun p => (.arr p.1, p.2)
      else if c = '\x7b' then (parseObj fuel r).map fun p => (.obj p.1, p.2)
      else if c = 'n' then
        if r.take 3 = ['u', 'l', 'l'] then some (.null, r.drop 3) else none
      else if c = '-' || isDigitCh c then parseNum (c :: r)
      else none

/-- Parse the remainder of an array, after the opening bracket. -/
def parseArr : Nat → List Char → Option (List Val × List Char)
  | 0, _ => none
  | fuel + 1, s =>
    match skipWs s with
    | [] => none
    | c :: r =>
      if c = ']' then some ([], r)
      else
        (parseVal fuel (c :: r)).bind fun p =>
          match skipWs p.2 with
          | [] => none
          | c2 :: r2 =>
            if c2 = ',' then (parseArr fuel r2).map fun p2 => (p.1 :: p2.1, p2.2)
            else if c2 = ']' then some ([p.1], r2)
            else none

/-- Parse the remainder of an object, after the opening brace. -/
def parseObj : Nat → List Char → Option (List (String × Val) × List Char)
  | 0, _ => none
  | fuel + 1, s =>
    match skipWs s with
    | [] => none
    | c :: r =>
      if c = '\x7d' then some ([], r)
      else if c = '"' then
        (parseStrChars r).bind fun pk =>
          match skipWs pk.2 with
          | [] => none
          | c3 :: r3 =>
            if c3 = ':' then
              (parseVal fuel r3).bind fun pv =>
                match skipWs pv.2 with
                | [] => none
                | c5 :: r5 =>
                  if c5 = ',' then (parseObj fuel r5).map fun p2 =>
                      ((String.mk pk.1, pv.1) :: p2.1, p2.2)
                  else if c5 = '\x7d' then some ([(String.mk pk.1, pv.1)], r5)
                  else none
            else none
      else none

end

/-- `json.loads`: parse a complete document (nothing but whitespace may
follow the value). -/
def json_loads (s : List Char) : Option Val :=
  (parseVal (s.length + 1) s).bind fun p =>
    if skipWs p.2 = [] then some p.1 else none

/-- The document `save_logs` writes: the buffer as a JSON array of the
entries' dicts. -/
def save_logs_chars (logs : List Entry) : List Char :=
  printVal (Val.arr (logs.map fun e => Val.obj (entryDict e)))

/-- Characters that may legally start a printed number, together with all the
disambiguation facts the parser needs about such a head character. -/
def numStart (c : Char) : Prop :=
  (c = '-' || isDigitCh c) = true ∧ isWsCh c = false ∧ c ≠ 'n' ∧ c ≠ '"' ∧
    c ≠ '[' ∧ c ≠ '\x7b' ∧ c ≠ ']' ∧ c ≠ '\x7d' ∧ c ≠ ',' ∧ c ≠ ':' ∧ c ≠ '.'

theorem digitChar_numStart (d : Nat) (h : d < 10) : numStart (digitChar d) := by
  interval_cases d <;> exact ⟨rfl, rfl, by decide, by decide, by decide,
    by decide, by decide, by decide, by decide, by decide, by decide⟩

theorem minus_numStart : numStart '-' := by
  refine ⟨rfl, rfl, ?_, ?_, ?_, ?_, ?_, ?_, ?_, ?_, ?_⟩ <;> decide

theorem natChars_cons (n : Nat) :
    ∃ d t, natChars n = digitChar d :: t ∧ d < 10 := by
  obtain ⟨ds, hmap, hlt, hne, _⟩ := natChars_spec n
  cases ds with
  | nil => exact absurd rfl hne
  | cons d ds' => exact ⟨d, ds'.map digitChar, by simp [hmap], hlt d (by simp)⟩

theorem intChars_cons (m : Int) :
    ∃ c t, intChars m = c :: t ∧ numStart c := by
  rw [intChars]
  by_cases hm : m < 0
  · rw [if_pos hm]
    exact ⟨'-', _, rfl, minus_numStart⟩
  · rw [if_neg hm]
    obtain ⟨d, t, ht, hd⟩ := natChars_cons m.natAbs
    exact ⟨digitChar d, t, ht, digitChar_numStart d hd⟩

theorem ratChars_cons (q : Rat) :
    ∃ c t, ratChars q = c :: t ∧ numStart c := by
  rw [ratChars]
  by_cases hm : (ratMantExp q).1 < 0
  · rw [if_pos hm]
    exact ⟨'-', _, rfl, minus_numStart⟩
  · rw [if_neg hm]
    obtain ⟨d, t, ht, hd⟩ := natChars_cons ((ratMantExp q).1.natAbs / 10 ^ (ratMantExp q).2)
    exact ⟨digitChar d, _, by rw [List.nil_append, ht, List.cons_append],
      digitChar_numStart d hd⟩

/-- Facts about the head of any printed value that let the parser
dispatch: it is not whitespace and not a closer or separator. -/
theorem printVal_cons (v : Val) :
    ∃ c t, printVal v = c :: t ∧ isWsCh c = false ∧ c ≠ ']' ∧ c ≠ '\x7d' ∧
      c ≠ ',' ∧ c ≠ ':' := by
  cases v with
  | null => exact ⟨'n', _, rfl, by decide, by decide, by decide, by decide, by decide⟩
  | str s => exact ⟨'"', _, rfl, by decide, by decide, by decide, by decide, by decide⟩
  | int m =>
    obtain ⟨c, t, ht, hns⟩ := intChars_cons m
    exact ⟨c, t, ht, hns.2.1, hns.2.2.2.2.2.2.1, hns.2.2.2.2.2.2.2.1,
      hns.2.2.2.2.2.2.2.2.1, hns.2.2.2.2.2.2.2.2.2.1⟩
  | rat q =>
    obtain ⟨c, t, ht, hns⟩ := ratChars_cons q
    exact ⟨c, t, ht, hns.2.1, hns.2.2.2.2.2.2.1, hns.2.2.2.2.2.2.2.1,
      hns.2.2.2.2.2.2.2.2.1, hns.2.2.2.2.2.2.2.2.2.1⟩
  | arr vs => exact ⟨'[', _, rfl, by decide, by decide, by decide, by decide, by decide⟩
  | obj kvs => exact ⟨'\x7b', _, rfl, by decide, by decide, by decide, by decide, by decide⟩

theorem natFromDigits_zeros (z : Nat) (ds : List Nat) :
    natFromDigits (List.replicate z 0 ++ ds) = natFromDigits ds := by
  induction z with
  | zero => rfl
  | succ z ih =>
    rw [List.replicate_succ, List.cons_append]
    show natFromDigits (List.replicate z 0 ++ ds) = _
    exact ih

theorem parseNumCore_nat (n : Nat) (rest : List Char) (hr : noDigFirst rest)
    (hdot : ∀ c ∈ rest.head?, c ≠ '.') :
    parseNumCore (natChars n ++ rest) = some (.int n, rest) := by
  obtain ⟨ds, hmap, hlt, hne, hval⟩ := natChars_spec n
  have hd : ¬ rest.head? = some '.' := by
    cases rest with
    | nil => simp
    | cons c t => simp [hdot c rfl]
  rw [hmap, parseNumCore]
  simp only [parseDigits_spec ds hlt rest hr]
  rw [if_neg hne, if_neg hd, hval]

theorem parseNumCore_dec (ip fr e : Nat) (he : 1 ≤ e) (hfr : fr < 10 ^ e)
    (rest : List Char) (hr : noDigFirst rest) :
    parseNumCore (natChars ip ++ '.' ::
        (List.replicate (e - (natChars fr).length) '0' ++ natChars fr ++ rest)) =
      some (.rat ((((ip * 10 ^ e + fr : Nat) : Int) : Rat) / (10 : Rat) ^ e), rest) := by
  obtain ⟨ids, himap, hilt, hine, hival⟩ := natChars_spec ip
  obtain ⟨fds, hfmap, hflt, hfne, hfval⟩ := natChars_spec fr
  have hflen : (natChars fr).length ≤ e := natChars_len_le fr e he hfr
  have hfdslen : fds.length = (natChars fr).length := by
    rw [hfmap, List.length_map]
  set z := e - (natChars fr).length with hz
  have hpadmap : List.replicate z '0' ++ natChars fr =
      (List.replicate z 0 ++ fds).map digitChar := by
    rw [List.map_append, List.map_replicate, hfmap,
      show digitChar 0 = '0' from by decide]
  have hpadlt : ∀ d ∈ List.replicate z 0 ++ fds, d < 10 := by
    intro d hd
    rw [List.mem_append] at hd
    rcases hd with hd | hd
    · rw [List.eq_of_mem_replicate hd]; omega
    · exact hflt d hd
  have hpadne : List.replicate z 0 ++ fds ≠ [] := by
    simp [hfne]
  have hpadlen : (List.replicate z 0 ++ fds).length = e := by
    rw [List.length_append, List.length_replicate, hfdslen]
    omega
  have hpadval : natFromDigits (List.replicate z 0 ++ fds) = fr := by
    rw [natFromDigits_zeros, hfval]
  have hdig : noDigFirst ('.' ::
      (List.replicate z '0' ++ natChars fr ++ rest)) := by
    intro c hc
    cases hc
    rfl
  rw [himap, parseNumCore]
  simp only [parseDigits_spec ids hilt _ hdig]
  rw [if_neg hine]
  simp only [List.head?_cons, List.tail_cons]
  simp only [if_true]
  rw [hpadmap]
  simp only [parseDigits_spec (List.replicate z 0 ++ fds) hpadlt rest hr]
  rw [if_neg hpadne, hival, hpadlen, hpadval]

theorem parseNum_int (m : Int) (rest : List Char) (hr : noDigFirst rest)
    (hdot : ∀ c ∈ rest.head?, c ≠ '.') :
    parseNum (intChars m ++ rest) = some (.int m, rest) := by
  by_cases hneg : m < 0
  · rw [intChars, if_pos hneg, List.cons_append]
    have hcore := parseNumCore_nat m.natAbs rest hr hdot
    simp only [parseNum, hcore, Option.map_some', valNeg]
    have : -(m.natAbs : Int) = m := by omega
    rw [this]
  · rw [intChars, if_neg hneg]
    obtain ⟨d, t, ht, hd⟩ := natChars_cons m.natAbs
    have hprops := digitChar_props d hd
    rw [ht, List.cons_append]
    unfold parseNum
    split
    · next r heq =>
      exact absurd (List.head_eq_of_cons_eq heq) hprops.2.2.2.2.2.2.2.2
    · rw [← List.cons_append, ← ht, parseNumCore_nat m.natAbs rest hr hdot]
      have : (m.natAbs : Int) = m := by omega
      rw [this]

theorem parseNum_rat (q : Rat) (hq : decOk q = true) (rest : List Char)
    (hr : noDigFirst rest) :
    parseNum (ratChars q ++ rest) = some (.rat q, rest) := by
  obtain ⟨hm, he1⟩ := ratMantExp_spec q hq
  set m := (ratMantExp q).1 with hmdef
  set e := (ratMantExp q).2 with hedef
  have h10 : ((10 : Rat)) ^ e ≠ 0 := pow_ne_zero _ (by norm_num)
  have hfr : m.natAbs % 10 ^ e < 10 ^ e := Nat.mod_lt _ (by positivity)
  have hdec := parseNumCore_dec (m.natAbs / 10 ^ e) (m.natAbs % 10 ^ e) e he1 hfr rest hr
  have habs : m.natAbs / 10 ^ e * 10 ^ e + m.natAbs % 10 ^ e = m.natAbs := by
    rw [Nat.mul_comm (m.natAbs / 10 ^ e) (10 ^ e)]
    exact Nat.div_add_mod _ _
  have hq10 : q * (10 : Rat) ^ e / (10 : Rat) ^ e = q := mul_div_cancel_right₀ q h10
  rw [ratChars, ← hmdef, ← hedef]
  by_cases hneg : m < 0
  · rw [if_pos hneg]
    have hcast : (((m.natAbs / 10 ^ e * 10 ^ e + m.natAbs % 10 ^ e : Nat) : Int) : Rat) =
        -(m : Rat) := by
      rw [habs]
      have h2 : ((m.natAbs : Nat) : Int) = -m := by omega
      rw [h2]
      push_cast
      ring
    rw [hcast] at hdec
    simp only [List.append_assoc, List.cons_append, List.singleton_append,
      List.nil_append] at hdec ⊢
    simp only [parseNum, hdec, Option.map_some', valNeg]
    have : -(-(m : Rat) / (10 : Rat) ^ e) = q := by
      rw [neg_div, neg_neg, hm, hq10]
    rw [this]
  · rw [if_neg hneg]
    have hcast : (((m.natAbs / 10 ^ e * 10 ^ e + m.natAbs % 10 ^ e : Nat) : Int) : Rat) =
        (m : Rat) := by
      rw [habs]
      have h2 : ((m.natAbs : Nat) : Int) = m := by omega
      rw [h2]
    rw [hcast] at hdec
    have hvq : (m : Rat) / (10 : Rat) ^ e = q := by
      rw [hm, hq10]
    rw [hvq] at hdec
    obtain ⟨d, t, ht, hd⟩ := natChars_cons (m.natAbs / 10 ^ e)
    have hprops := digitChar_props d hd
    simp only [List.append_assoc, List.cons_append, List.singleton_append,
      List.nil_append] at hdec ⊢
    rw [ht, List.cons_append]
    unfold parseNum
    split
    · next r heq =>
      exact absurd (List.head_eq_of_cons_eq heq) hprops.2.2.2.2.2.2.2.2
    · rw [← List.cons_append, ← ht]
      exact hdec

theorem parseVal_succ_num (fuel : Nat) (c : Char) (r : List Char) (h : numStart c) :
    parseVal (fuel + 1) (c :: r) = parseNum (c :: r) := by
  obtain ⟨h1, h2, h3, h4, h5, h6, _⟩ := h
  simp only [parseVal]
  rw [skipWs_cons _ _ h2]
  simp only []
  rw [if_neg h4, if_neg h5, if_neg h6, if_neg h3, if_pos h1]

theorem strOk_no_quote (s : String) (h : strOk s = true) :
    ∀ c ∈ s.data, c ≠ '"' := by
  intro c hc
  rw [strOk, List.all_eq_true] at h
  have h2 := h c hc
  simp only [jcharOk, Bool.and_eq_true, decide_eq_true_eq] at h2
  exact h2.1.1.1


/-- The round trip: parsing the serialization of a well-formed value (in any
right context that cannot extend a number) returns exactly that value. -/
theorem parse_print (fuel : Nat) :
    (∀ (v : Val) (rest : List Char), ValWF v = true →
      (printVal v).length ≤ fuel → noDigFirst rest → (∀ c ∈ rest.head?, c ≠ '.') →
      parseVal fuel (printVal v ++ rest) = some (v, rest)) ∧
    (∀ (vs : List Val) (rest : List Char), ValsWF vs = true →
      (printArrBody vs).length + 1 ≤ fuel →
      parseArr fuel (printArrBody vs ++ ']' :: rest) = some (vs, rest)) ∧
    (∀ (kvs : List (String × Val)) (rest : List Char), ObjWF kvs = true →
      (printObjBody kvs).length + 1 ≤ fuel →
      parseObj fuel (printObjBody kvs ++ '\x7d' :: rest) = some (kvs, rest)) := by
  induction fuel with
  | zero =>
    refine ⟨?_, ?_, ?_⟩
    · intro v rest _ hlen _ _
      obtain ⟨c, t, hct, _⟩ := printVal_cons v
      rw [hct] at hlen
      simp at hlen
    · intro vs rest _ hlen
      omega
    · intro kvs rest _ hlen
      omega
  | succ fuel ih =>
    obtain ⟨ih1, ih2, ih3⟩ := ih
    refine ⟨?_, ?_, ?_⟩
    · intro v rest hwf hlen hnd hdot
      cases v with
      | null =>
        show parseVal (fuel + 1) (['n', 'u', 'l', 'l'] ++ rest) = _
        rw [show ['n', 'u', 'l', 'l'] ++ rest = 'n' :: ('u' :: 'l' :: 'l' :: rest)
          by simp]
        simp only [parseVal]
        rw [skipWs_cons _ _ (by decide)]
        rfl
      | str s =>
        have hq := strOk_no_quote s (by simpa [ValWF] using hwf)
        show parseVal (fuel + 1) (('"' :: s.data) ++ ['"'] ++ rest) = _
        rw [show ('"' :: s.data) ++ ['"'] ++ rest = '"' :: (s.data ++ '"' :: rest)
          by simp]
        simp only [parseVal]
        rw [skipWs_cons _ _ (by decide)]
        simp only []
        simp only [if_true]
        rw [parseStrChars_spec s.data hq rest]
        rfl
      | int m =>
        obtain ⟨c, t, hct, hns⟩ := intChars_cons m
        show parseVal (fuel + 1) (intChars m ++ rest) = _
        rw [hct, List.cons_append, parseVal_succ_num fuel _ _ hns,
          ← List.cons_append, ← hct]
        exact parseNum_int m rest hnd hdot
      | rat q =>
        obtain ⟨c, t, hct, hns⟩ := ratChars_cons q
        show parseVal (fuel + 1) (ratChars q ++ rest) = _
        rw [hct, List.cons_append, parseVal_succ_num fuel _ _ hns,
          ← List.cons_append, ← hct]
        exact parseNum_rat q (by simpa [ValWF] using hwf) rest hnd
      | arr vs =>
        have hlen2 : (printArrBody vs).length + 1 ≤ fuel := by
          rw [show printVal (.arr vs) = ('[' :: printArrBody vs) ++ [']'] from rfl]
            at hlen
          simp [List.length_append] at hlen
          omega
        show parseVal (fuel + 1) (('[' :: printArrBody vs) ++ [']'] ++ rest) = _
        rw [show ('[' :: printArrBody vs) ++ [']'] ++ rest =
            '[' :: (printArrBody vs ++ ']' :: rest) by simp]
        simp only [parseVal]
        rw [skipWs_cons _ _ (by decide)]
        simp only []
        simp only [if_true]
        rw [ih2 vs rest (by simpa [ValWF] using hwf) hlen2]
        rfl
      | obj kvs =>
        have hlen2 : (printObjBody kvs).length + 1 ≤ fuel := by
          rw [show printVal (.obj kvs) = ('\x7b' :: printObjBody kvs) ++ ['\x7d']
            from rfl] at hlen
          simp [List.length_append] at hlen
          omega
        show parseVal (fuel + 1) (('\x7b' :: printObjBody kvs) ++ ['\x7d'] ++ rest) = _
        rw [show ('\x7b' :: printObjBody kvs) ++ ['\x7d'] ++ rest =
            '\x7b' :: (printObjBody kvs ++ '\x7d' :: rest) by simp]
        simp only [parseVal]
        rw [skipWs_cons _ _ (by decide)]
        simp only []
        simp only [if_true]
        rw [ih3 kvs rest (by simpa [ValWF] using hwf) hlen2]
        rfl
    · intro vs rest hwf hlen
      cases vs with
      | nil =>
        show parseArr (fuel + 1) ([] ++ ']' :: rest) = _
        rw [List.nil_append]
        simp only [parseArr]
        rw [skipWs_cons _ _ (by decide)]
        rfl
      | cons v vs' =>
        obtain ⟨c, t, hct, hws, hbr, hbrace, hcomma, hcolon⟩ := printVal_cons v
        rw [ValsWF, Bool.and_eq_true] at hwf
        cases vs' with
        | nil =>
          have hlenv : (printVal v).length ≤ fuel := by
            rw [show printArrBody [v] = printVal v from rfl] at hlen
            omega
          show parseArr (fuel + 1) (printVal v ++ ']' :: rest) = _
          rw [hct, List.cons_append]
          simp only [parseArr]
          rw [skipWs_cons _ _ hws]
          simp only []
          rw [if_neg hbr, ← List.cons_append, ← hct,
            ih1 v (']' :: rest) hwf.1 hlenv
              (by intro x hx; cases hx; rfl) (by intro x hx; cases hx; decide)]
          simp only [Option.bind]
          rw [skipWs_cons _ _ (by decide)]
          rfl
        | cons v2 vs'' =>
          have hlenv : (printVal v).length ≤ fuel ∧
              (printArrBody (v2 :: vs'')).length + 1 ≤ fuel := by
            rw [show printArrBody (v :: v2 :: vs'') =
              printVal v ++ ',' :: printArrBody (v2 :: vs'') from rfl] at hlen
            simp [List.length_append] at hlen
            omega
          show parseArr (fuel + 1)
            ((printVal v ++ ',' :: printArrBody (v2 :: vs'')) ++ ']' :: rest) = _
          rw [show (printVal v ++ ',' :: printArrBody (v2 :: vs'')) ++ ']' :: rest =
            printVal v ++ ',' :: (printArrBody (v2 :: vs'') ++ ']' :: rest) by simp]
          rw [hct, List.cons_append]
          simp only [parseArr]
          rw [skipWs_cons _ _ hws]
          simp only []
          rw [if_neg hbr, ← List.cons_append, ← hct,
            ih1 v (',' :: (printArrBody (v2 :: vs'') ++ ']' :: rest)) hwf.1
              hlenv.1 (by intro x hx; cases hx; rfl) (by intro x hx; cases hx; decide)]
          simp only [Option.bind]
          rw [skipWs_cons _ _ (by decide)]
          simp only []
          simp only [if_true]
          rw [ih2 (v2 :: vs'') rest hwf.2 hlenv.2]
          rfl
    · intro kvs rest hwf hlen
      cases kvs with
      | nil =>
        show parseObj (fuel + 1) ([] ++ '\x7d' :: rest) = _
        rw [List.nil_append]
        simp only [parseObj]
        rw [skipWs_cons _ _ (by decide)]
        rfl
      | cons kv kvs' =>
        obtain ⟨k, v⟩ := kv
        rw [ObjWF, Bool.and_eq_true, Bool.and_eq_true] at hwf
        obtain ⟨⟨hks, hvw⟩, hkvs⟩ := hwf
        have hkq := strOk_no_quote k hks
        obtain ⟨c, t, hct, hws, hbr, hbrace, hcomma, hcolon⟩ := printVal_cons v
        cases kvs' with
        | nil =>
          have hlenv : (printVal v).length ≤ fuel := by
            rw [show printObjBody [(k, v)] =
              ('"' :: k.data) ++ '"' :: ':' :: printVal v from rfl] at hlen
            simp [List.length_append] at hlen
            omega
          show parseObj (fuel + 1)
            ((('"' :: k.data) ++ '"' :: ':' :: printVal v) ++ '\x7d' :: rest) = _
          rw [show (('"' :: k.data) ++ '"' :: ':' :: printVal v) ++ '\x7d' :: rest =
            '"' :: (k.data ++ '"' :: (':' :: (printVal v ++ '\x7d' :: rest))) by simp]
          simp only [parseObj]
          rw [skipWs_cons _ _ (by decide)]
          simp only []
          simp only [if_true]
          rw [parseStrChars_spec k.data hkq _]
          simp only [Option.bind]
          rw [skipWs_cons _ _ (by decide)]
          simp only []
          simp only [if_true]
          rw [ih1 v ('\x7d' :: rest) hvw hlenv
              (by intro x hx; cases hx; rfl) (by intro x hx; cases hx; decide)]
          simp only [Option.bind]
          rw [skipWs_cons _ _ (by decide)]
          rfl
        | cons kv2 kvs'' =>
          have hlenv : (printVal v).length ≤ fuel ∧
              (printObjBody (kv2 :: kvs'')).length + 1 ≤ fuel := by
            rw [show printObjBody ((k, v) :: kv2 :: kvs'') =
              ('"' :: k.data) ++ '"' :: ':' :: printVal v ++
                ',' :: printObjBody (kv2 :: kvs'') from rfl] at hlen
            simp [List.length_append] at hlen
            omega
          show parseObj (fuel + 1)
            ((('"' :: k.data) ++ '"' :: ':' :: printVal v ++
              ',' :: printObjBody (kv2 :: kvs'')) ++ '\x7d' :: rest) = _
          rw [show (('"' :: k.data) ++ '"' :: ':' :: printVal v ++
              ',' :: printObjBody (kv2 :: kvs'')) ++ '\x7d' :: rest =
            '"' :: (k.data ++ '"' :: (':' :: (printVal v ++
              ',' :: (printObjBody (kv2 :: kvs'') ++ '\x7d' :: rest)))) by simp]
          simp only [parseObj]
          rw [skipWs_cons _ _ (by decide)]
          simp only []
          simp only [if_true]
          rw [parseStrChars_spec k.data hkq _]
          simp only [Option.bind]
          rw [skipWs_cons _ _ (by decide)]
          simp only []
          simp only [if_true]
          rw [ih1 v (',' :: (printObjBody (kv2 :: kvs'') ++ '\x7d' :: rest)) hvw
              hlenv.1 (by intro x hx; cases hx; rfl) (by intro x hx; cases hx; decide)]
          simp only [Option.bind]
          rw [skipWs_cons _ _ (by decide)]
          simp only []
          simp only [if_true]
          rw [ih3 (kv2 :: kvs'') rest hkvs hlenv.2]
          rfl

theorem json_loads_print (v : Val) (h : ValWF v = true) :
    json_loads (printVal v) = some v := by
  have hrt := (parse_print ((printVal v).length + 1)).1 v [] h (by omega)
    (by intro c hc; simp at hc) (by intro c hc; simp at hc)
  rw [List.append_nil] at hrt
  rw [json_loads, hrt]
  rfl

/-- A buffered entry whose dict serializes losslessly. -/
def EntryWF (e : Entry) : Bool := ValWF (Val.obj (entryDict e))

theorem logsWF (logs : List Entry) (h : ∀ e ∈ logs, EntryWF e = true) :
    ValWF (Val.arr (logs.map fun e => Val.obj (entryDict e))) = true := by
  rw [ValWF]
  induction logs with
  | nil => rfl
  | cons e es ih =>
    rw [List.map_cons, ValsWF, Bool.and_eq_true]
    exact ⟨h e (by simp), ih fun x hx => h x (by simp [hx])⟩

/-- C7: re-parsing the document written by `save_logs` yields a list of
objects of the same length as the buffer, with, at every position, exactly
the field names of the corresponding appended entry — no event is dropped,
duplicated or reordered by the save. -/
theorem claim_C7 (logs : List Entry) (hwf : ∀ e ∈ logs, EntryWF e = true) :
    ∃ objs : List Dict,
      json_loads (save_logs_chars logs) = some (Val.arr (objs.map Val.obj)) ∧
      objs = logs.map entryDict ∧
      objs.length = logs.length ∧
      ∀ i, i < logs.length →
        (objs[i]?).map dkeys = (logs[i]?).map fun e => dkeys (entryDict e) := by
  refine ⟨logs.map entryDict, ?_, rfl, by simp, ?_⟩
  · rw [save_logs_chars, json_loads_print _ (logsWF logs hwf)]
    simp [List.map_map]
  · intro i hi
    simp only [List.getElem?_map, Option.map_map]
    rfl

/-- A concrete well-formed buffered entry. -/
def e7 : Entry :=
  { timestamp := 0, event_type := "login", session_id := "sid",
    user_id := Val.str "u1", ip_address := Val.str "1.2.3.4",
    user_agent := Val.str "UA", geo := Val.null,
    device_type := Val.str "desktop",
    data := Val.obj [("user_id", Val.str "u1")] }

/-- Witness for C7 at a one-entry buffer. -/
theorem claim_C7_witness :
    ∃ objs : List Dict,
      json_loads (save_logs_chars [e7]) = some (Val.arr (objs.map Val.obj)) ∧
      objs = [e7].map entryDict ∧
      objs.length = ([e7] : List Entry).length ∧
      ∀ i, i < ([e7] : List Entry).length →
        (objs[i]?).map dkeys = (([e7] : List Entry)[i]?).map fun e =>
          dkeys (entryDict e) :=
  claim_C7 [e7] (by decide)
